import Mathlib

/-!
Verification of the svs-browser ingestion-and-retrieval core.

Shallow embedding of the Python sources under `apps/backend/app`:
  * `ingestion/api_client.py`   — rate-limited fetch client with retry/backoff
  * `services/retrieval.py`     — hybrid retrieval fusion
  * `ingestion/chunker.py`      — token-aware text chunker
  * `ingestion/html_parser.py`  — download-link size/dimension parsing, credit dedup
  * `ingestion/embedding_pipeline.py` — batched embedding persistence
  * `ingestion/pipeline.py`     — content-update backfill phase

Modelling conventions:
  * Python `str` values manipulated character-wise are embedded as `List Char`
    (`Str`); `len` is `List.length`, slices are `take`/`drop`.
  * Python `float` scores and delays are embedded as `ℚ` (exact rationals);
    where CPython float overflow is itself the subject of a claim, overflow to
    infinity is modelled explicitly at the IEEE-double range boundary `2^1024`.
  * Async I/O (HTTP responses, the embedding backend, fetch+parse of a page) is
    embedded as explicit response scripts / `Except`-valued functions passed in
    as parameters; `asyncio.sleep` backoff is accumulated as a rational total.
  * The SQLAlchemy session is embedded as a pair of row lists
    (staged / committed); `commit` moves staged rows into committed,
    `rollback` drops them.
-/

namespace Svs

/-- Python `str` embedded character-wise. -/
abbrev Str := List Char

/-! ## 1. Fetch client — `ingestion/api_client.py`, `SvsApiClient._request`

The outcome of one `httpx` request attempt: a 2xx response on which
`raise_for_status` does not raise, an `httpx.HTTPStatusError` carrying the
status code, or a network-level `httpx.RequestError`. -/

inductive HttpOutcome where
  | ok : HttpOutcome
  | httpError : Nat → HttpOutcome
  | netError : HttpOutcome
deriving DecidableEq, Repr

instance {ε α : Type} [DecidableEq ε] [DecidableEq α] : DecidableEq (Except ε α)
  | .ok a, .ok b =>
    if h : a = b then .isTrue (by rw [h]) else .isFalse (fun hh => by cases hh; exact h rfl)
  | .error a, .error b =>
    if h : a = b then .isTrue (by rw [h]) else .isFalse (fun hh => by cases hh; exact h rfl)
  | .ok _, .error _ => .isFalse (fun hh => by cases hh)
  | .error _, .ok _ => .isFalse (fun hh => by cases hh)

/-- Result of `_request`: either the response (`Except.ok`) or the raised
error — `some` last attempt error, or `none` for the
`RuntimeError("Request failed after retries")` fallback when no attempt ran —
together with the total backoff slept via `asyncio.sleep`. -/
structure RequestResult where
  outcome : Except (Option HttpOutcome) Unit
  total_sleep : ℚ
deriving DecidableEq, Repr

/-- `api_client.py` line 117: status codes retried with backoff. -/
def isRetryableStatus (code : Nat) : Bool :=
  code = 429 || code = 500 || code = 502 || code = 503 || code = 504

/-- The `for attempt in range(self.max_retries)` loop of `_request`
(`api_client.py` lines 106-133).  `attemptsLeft` counts the remaining loop
iterations, `attempt` is the Python loop variable, `lastError` mirrors
`last_error`, `sleep` accumulates the `asyncio.sleep(wait_time)` calls with
`wait_time = retry_delay * 2**attempt`.  `responses attempt` is the outcome of
the HTTP attempt number `attempt` (rate-limiter waits are not part of any
claim and are not modelled). -/
def requestGo (retry_delay : ℚ) (responses : Nat → HttpOutcome) :
    List Nat → Option HttpOutcome → ℚ → RequestResult
  | [], lastError, sleep => ⟨.error lastError, sleep⟩
  | attempt :: rest, lastError, sleep =>
    match responses attempt with
    | .ok => ⟨.ok (), sleep⟩
    | .httpError code =>
      if isRetryableStatus code then
        requestGo retry_delay responses rest (some (.httpError code))
          (sleep + retry_delay * 2 ^ attempt)
      else
        ⟨.error (some (.httpError code)), sleep⟩
    | .netError =>
      requestGo retry_delay responses rest (some .netError)
        (sleep + retry_delay * 2 ^ attempt)

/-- `SvsApiClient._request` with `max_retries` and `retry_delay`, run against a
script of per-attempt outcomes: the loop iterates over
`range(self.max_retries)` and falls through to `raise last_error` when the
range is exhausted. -/
def svs_request (max_retries : Nat) (retry_delay : ℚ) (responses : Nat → HttpOutcome) :
    RequestResult :=
  requestGo retry_delay responses (List.range max_retries) none 0

/-! ## 2. Hybrid retrieval fusion — `services/retrieval.py`

`_merge_results` (lines 181-231) plus the filter/sort/truncate tail of
`retrieve` (lines 84-85).  The keyword / vector result dicts
`chunk_id -> (score, chunk, page)` are embedded as association lists
`List (Nat × ℚ)`; the chunk/page payload carried alongside the score is not
referenced by any claim and is omitted.  Float scores are exact rationals
(the 1.2 boost is 6/5). -/

/-- Output row of `_merge_results` (`RetrievedChunk` restricted to the scoring
fields; `svs_id`/`page_title`/`section`/`content` are payload copies). -/
structure Retrieved where
  chunk_id : Nat
  keyword_score : ℚ
  vector_score : ℚ
  combined_score : ℚ
deriving DecidableEq, Repr

/-- Dict lookup `results.get(chunk_id)` on the association-list embedding. -/
def keyLookup (l : List (Nat × ℚ)) (id : Nat) : Option ℚ :=
  (l.find? (fun e => e.1 == id)).map (·.2)

/-- `RetrievalService._merge_results`.  The union
`set(keyword_results) | set(vector_results)` is enumerated keyword-side ids
first, then vector-only ids (Python set order is unspecified; no claim
depends on the enumeration order). -/
def merge_results (kw vec : List (Nat × ℚ)) (keyword_weight vector_weight : ℚ) :
    List Retrieved :=
  let kwIds := kw.map (·.1)
  let ids := kwIds ++ (vec.map (·.1)).filter (fun i => ¬ kwIds.contains i)
  ids.map (fun id =>
    let keyword_data := keyLookup kw id
    let vector_data := keyLookup vec id
    let keyword_score := keyword_data.getD 0
    let vector_score := vector_data.getD 0
    let combined := keyword_weight * keyword_score + vector_weight * vector_score
    let boosted := if keyword_data.isSome ∧ vector_data.isSome then combined * (6 / 5) else combined
    ⟨id, keyword_score, vector_score, min boosted 1⟩)

/-- Descending order on combined score, the key of
`sorted(filtered, key=lambda x: x.combined_score, reverse=True)`. -/
def scoreGE (a b : Retrieved) : Prop := b.combined_score ≤ a.combined_score

instance : DecidableRel scoreGE := fun a b => inferInstanceAs (Decidable (_ ≤ _))

instance : IsTotal Retrieved scoreGE := ⟨fun a b => le_total b.combined_score a.combined_score⟩

instance : IsTrans Retrieved scoreGE := ⟨fun _ _ _ h h2 => le_trans h2 h⟩

/-- The tail of `RetrievalService.retrieve` (lines 84-85): drop results with
`combined_score < min_score`, sort descending by combined score, keep `top_k`. -/
def retrieve_rank (merged : List Retrieved) (min_score : ℚ) (top_k : Nat) : List Retrieved :=
  ((merged.filter (fun r => min_score ≤ r.combined_score)).insertionSort scoreGE).take top_k

/-- Written from the spec's words (section 4.6 fusion rule), for comparison
with the code's `merge_results`: `keyword_weight·keyword_score +
vector_weight·vector_score`, a 1.2 boost iff present on both sides, capped
at 1.0; a missing side contributes score 0. -/
def specFusionScore (keyword_weight vector_weight : ℚ) (kd vd : Option ℚ) : ℚ :=
  let raw := keyword_weight * kd.getD 0 + vector_weight * vd.getD 0
  min (if kd.isSome ∧ vd.isSome then raw * (6 / 5) else raw) 1

/-! ## 3. Text chunker — `ingestion/chunker.py`

Python strings are embedded as `List Char`.  `str.strip()` semantics follow
CPython's ASCII whitespace set (the inputs of this repo are ASCII; Unicode
whitespace beyond `\x0b`/`\x0c` is outside the model).  The `content_hash`
field (a SHA-256 hex digest of the content computed via `hashlib`) is not
referenced by any claim and is omitted from the embedded `TextChunk`. -/

/-- Characters stripped by Python `str.strip()` / matched by regex `\s`
(ASCII range). -/
def isPySpace (c : Char) : Bool :=
  c = ' ' || c = '\t' || c = '\n' || c = '\r' || c = '\x0b' || c = '\x0c'

/-- Python `text.strip()`. -/
def pyStrip (s : Str) : Str :=
  ((s.dropWhile isPySpace).reverse.dropWhile isPySpace).reverse

/-- Python `text.strip(", ")` (used by `_split_long_sentence`). -/
def isCommaSpace (c : Char) : Bool := c = ',' || c = ' '

/-- Python `text.strip(", ")`. -/
def stripCommaSpace (s : Str) : Str :=
  ((s.dropWhile isCommaSpace).reverse.dropWhile isCommaSpace).reverse

/-- `DEFAULT_TARGET_TOKENS` / `DEFAULT_MAX_TOKENS` / `DEFAULT_OVERLAP_TOKENS`
/ `DEFAULT_MIN_TOKENS` and `CHARS_PER_TOKEN` (`chunker.py` lines 13-19). -/
structure ChunkerParams where
  target_tokens : Nat
  max_tokens : Nat
  overlap_tokens : Nat
  min_tokens : Nat
deriving DecidableEq, Repr

/-- The constructor defaults of `TextChunker.__init__`: 512 / 768 / 64 / 50. -/
def defaultParams : ChunkerParams := ⟨512, 768, 64, 50⟩

/-- `CHARS_PER_TOKEN = 4`; `TextChunker.estimate_tokens` is `len(text) // 4`. -/
def estimate_tokens (s : Str) : Nat := s.length / 4

/-- The `TextChunk` dataclass (minus `content_hash`, see section header).
The Python field `section` is a Lean keyword and is embedded as `sec`. -/
structure TextChunk where
  content : Str
  sec : String
  chunk_index : Nat
  token_count : Nat
deriving DecidableEq, Repr, Inhabited

/-- `TextChunker._create_chunk`: strip the content, estimate tokens. -/
def create_chunk (content : Str) (sec : String) (index : Nat) : TextChunk :=
  let c := pyStrip content
  ⟨c, sec, index, estimate_tokens c⟩

/-- `.!?` — the sentence-final punctuation of the boundary regex. -/
def isSentEnd (c : Char) : Bool := c = '.' || c = '!' || c = '?'

/-- Regex class `[A-Z]` (ASCII). -/
def isUpperAZ (c : Char) : Bool := 'A' ≤ c && c ≤ 'Z'

/-- `re.split` against `sentence_pattern = (?<=[.!?])\s+(?=[A-Z])|(?<=[.!?])\s*$`
(`chunker.py` line 58, applied at line 176).  A match starts at a position
whose preceding character is in `[.!?]` and either consumes a maximal
nonempty whitespace run followed by `[A-Z]`, or consumes trailing whitespace
up to end of string (zero-width allowed, yielding a trailing empty part —
Python ≥ 3.7 splits on empty matches).  `prevEnd` records whether the
previously consumed character is in `[.!?]`; `accRev` is the current part in
reverse; `fuel` bounds recursion (callers pass `rest.length + 1`, which is
sufficient because every step consumes at least one character). -/
def sentSplitGo : Nat → Bool → Str → Str → List Str
  | 0, _, accRev, _ => [accRev.reverse]
  | _ + 1, prevEnd, accRev, [] =>
    if prevEnd then [accRev.reverse, []] else [accRev.reverse]
  | fuel + 1, prevEnd, accRev, c :: rs =>
    if prevEnd && isPySpace c then
      let run := (c :: rs).takeWhile isPySpace
      let after := (c :: rs).drop run.length
      match after with
      | [] => [accRev.reverse, []]
      | d :: _ =>
        if isUpperAZ d then
          accRev.reverse :: sentSplitGo fuel false [] after
        else
          sentSplitGo fuel (isSentEnd c) (c :: accRev) rs
    else
      sentSplitGo fuel (isSentEnd c) (c :: accRev) rs

/-- `TextChunker._split_sentences` (lines 173-189): split on the boundary
pattern, strip each part, drop empties; fall back to `[text]` when nothing
remains. -/
def split_sentences (text : Str) : List Str :=
  let parts := sentSplitGo (text.length + 1) false [] text
  let sentences := (parts.map pyStrip).filter (fun p => ¬ p.isEmpty)
  if sentences.isEmpty then [text] else sentences

/-- `,;:` — the clause-separator class of `clause_pattern = [,;:]\s+`. -/
def isClauseSep (c : Char) : Bool := c = ',' || c = ';' || c = ':'

/-- `re.split` against `clause_pattern = [,;:]\s+` (`chunker.py` line 201):
a match is a separator character immediately followed by a maximal nonempty
whitespace run.  `fuel` as in `sentSplitGo`. -/
def clauseSplitGo : Nat → Str → Str → List Str
  | 0, accRev, _ => [accRev.reverse]
  | _ + 1, accRev, [] => [accRev.reverse]
  | fuel + 1, accRev, c :: rs =>
    if isClauseSep c && (rs.takeWhile isPySpace).length > 0 then
      accRev.reverse :: clauseSplitGo fuel [] (rs.drop (rs.takeWhile isPySpace).length)
    else
      clauseSplitGo fuel (c :: accRev) rs

/-- `clause_pattern.split(sentence)`. -/
def clauseSplit (sentence : Str) : List Str :=
  clauseSplitGo (sentence.length + 1) [] sentence

/-- The accumulate-and-flush loop of `TextChunker._split_long_sentence`
(lines 204-218): `parts` remaining clause parts, `current` is
`current_text`, `idx` is `chunk_index`. -/
def slsGo (P : ChunkerParams) (sec : String) :
    List Str → Str → Nat → List TextChunk
  | [], current, idx =>
    if ¬ current.isEmpty then [create_chunk current sec idx] else []
  | part :: ps, current, idx =>
    if estimate_tokens (current ++ part) ≤ P.max_tokens then
      slsGo P sec ps (stripCommaSpace (current ++ ',' :: ' ' :: part)) idx
    else if ¬ current.isEmpty then
      create_chunk current sec idx :: slsGo P sec ps part (idx + 1)
    else
      slsGo P sec ps part idx

/-- `TextChunker._split_long_sentence` (lines 191-219). -/
def split_long_sentence (P : ChunkerParams) (sentence : Str) (sec : String)
    (start_index : Nat) : List TextChunk :=
  slsGo P sec (clauseSplit sentence) [] start_index

/-- `TextChunker._get_overlap_text` (lines 221-236): last
`overlap_tokens * CHARS_PER_TOKEN` characters, advanced past the first space
when one occurs at index > 0, with a trailing space appended. -/
def get_overlap_text (P : ChunkerParams) (text : Str) : Str :=
  let overlap_chars := P.overlap_tokens * 4
  if text.length ≤ overlap_chars then text
  else
    let overlap := text.drop (text.length - overlap_chars)
    let overlap2 :=
      match overlap.findIdx? (fun c => c = ' ') with
      | some i => if i > 0 then overlap.drop (i + 1) else overlap
      | none => overlap
    overlap2 ++ [' ']

/-- The loop state of `TextChunker.chunk_text` (lines 92-95): accumulated
`chunks`, `current_text`, `current_tokens`, `chunk_index`. -/
structure CTState where
  chunks : List TextChunk
  current : Str
  current_tokens : Nat
  idx : Nat
deriving Repr

/-- One iteration of the `for sentence in sentences` loop of
`TextChunker.chunk_text` (lines 97-133).  The Python long-sentence case
flushes the current chunk when nonempty and then splices in the
`_split_long_sentence` sub-chunks starting at the updated `chunk_index`;
here that flush-then-continue is written as two explicit branches with
identical resulting states. -/
def ctStep (P : ChunkerParams) (sec : String) (st : CTState) (sentence : Str) :
    CTState :=
  let sentence_tokens := estimate_tokens sentence
  if sentence_tokens > P.max_tokens then
    if ¬ st.current.isEmpty then
      -- flush current chunk, then splice in the long-sentence sub-chunks
      let subs := split_long_sentence P sentence sec (st.idx + 1)
      ⟨(st.chunks ++ [create_chunk st.current sec st.idx]) ++ subs, [], 0,
        (st.idx + 1) + subs.length⟩
    else
      let subs := split_long_sentence P sentence sec st.idx
      ⟨st.chunks ++ subs, st.current, st.current_tokens, st.idx + subs.length⟩
  else if st.current_tokens + sentence_tokens > P.target_tokens then
    if ¬ st.current.isEmpty ∧ st.current_tokens ≥ P.min_tokens then
      let overlap_text := get_overlap_text P st.current
      let current2 := overlap_text ++ sentence
      ⟨st.chunks ++ [create_chunk st.current sec st.idx], current2,
        estimate_tokens current2, st.idx + 1⟩
    else
      -- current chunk too small, add sentence anyway
      let current2 := pyStrip (st.current ++ ' ' :: sentence)
      ⟨st.chunks, current2, estimate_tokens current2, st.idx⟩
  else
    let current2 := pyStrip (st.current ++ ' ' :: sentence)
    ⟨st.chunks, current2, estimate_tokens current2, st.idx⟩

/-- The trailing-content handling of `chunk_text` (lines 135-144): emit the
final accumulation when it meets the minimum; otherwise merge it into the
last chunk (reusing that chunk's index); otherwise drop it. -/
def ctFinish (P : ChunkerParams) (sec : String) (st : CTState) : List TextChunk :=
  if ¬ st.current.isEmpty then
    if st.current_tokens ≥ P.min_tokens then
      st.chunks ++ [create_chunk st.current sec st.idx]
    else
      match st.chunks.getLast? with
      | some last =>
        st.chunks.dropLast ++
          [create_chunk (last.content ++ ' ' :: st.current) sec last.chunk_index]
      | none => st.chunks
  else st.chunks

/-- `TextChunker.chunk_text` (lines 64-144). -/
def chunk_text (P : ChunkerParams) (text : Str) (sec : String) : List TextChunk :=
  if (pyStrip text).isEmpty then []
  else
    let t := pyStrip text
    let total_tokens := estimate_tokens t
    if total_tokens ≤ P.max_tokens then
      if total_tokens < P.min_tokens then [] else [create_chunk t sec 0]
    else
      ctFinish P sec ((split_sentences t).foldl (ctStep P sec) ⟨[], [], 0, 0⟩)

/-! ## 4. Download-link parsing — `ingestion/html_parser.py`,
`SvsHtmlParser._parse_download_link` (lines 809-849)

The link's visible text (`link.get_text(strip=True)`) is the input; the
`href`/`variant`/`mime_type`/`filename` fields are not referenced by any
claim and are omitted.  `re.search` against
`size_pattern = \[(\d+(?:\.\d+)?)\s*(KB|MB|GB)\]` (IGNORECASE) and
`dimension_pattern = \((\d+)\s*[x×]\s*(\d+)\)` is embedded as a leftmost
maximal-munch scan, which agrees with the backtracking engine on these
patterns (after a maximal digit run the next pattern element can never match
a digit, so shorter runs never succeed).

CPython `float(numeral)` performs a correctly rounded decimal-to-binary64
conversion.  It is embedded faithfully: `roundDouble` rounds the exact
rational value to the nearest IEEE-754 double (ties to even) — the double
grid near `q` has quantum `2 ^ max (log2 q - 52) (-1074)` (normal numbers
have a 53-bit significand, subnormals bottom out at `2 ^ (-1074)`) — and
values from `2 ^ 1024 - 2 ^ 970` upward (the halfway point above the
largest finite double `2 ^ 1024 - 2 ^ 971`, which itself already rounds to
the even candidate `2 ^ 1024`) overflow to `inf`, modelled as `none`
(CPython returns `inf` here, it does not raise).  The multiplication
`size * multipliers.get(unit, 1)` is IEEE double multiplication: the exact
product, correctly rounded, with the same overflow boundary.  `int(inf)`
raises `OverflowError`; `int` of a finite double truncates toward zero,
which on the nonnegative values arising here is `Int.floor`. -/

/-- Regex class `\d` (ASCII). -/
def isDigit09 (c : Char) : Bool := '0' ≤ c && c ≤ '9'

/-- Value of a nonempty ASCII digit run. -/
def digitsVal (ds : Str) : Nat := ds.foldl (fun n c => 10 * n + (c.toNat - 48)) 0

/-- The size units matched by `size_pattern` group 2. -/
inductive SizeUnit where
  | kb | mb | gb
deriving DecidableEq, Repr

/-- `multipliers = {"KB": 1024, "MB": 1024**2, "GB": 1024**3}` (line 824). -/
def multiplier : SizeUnit → ℚ
  | .kb => 1024
  | .mb => 1024 ^ 2
  | .gb => 1024 ^ 3

/-- Case-insensitive match of `(KB|MB|GB)\]` at the head of the input. -/
def matchUnitBracket : Str → Option SizeUnit
  | c :: b :: ']' :: _ =>
    if b = 'B' ∨ b = 'b' then
      if c = 'K' ∨ c = 'k' then some .kb
      else if c = 'M' ∨ c = 'm' then some .mb
      else if c = 'G' ∨ c = 'g' then some .gb
      else none
    else none
  | _ => none

/-- Attempt `size_pattern` at the head of the input: `[`, digit run, optional
`.`-fraction (present only when a `.` is immediately followed by at least one
digit), `\s*`, unit, `]`.  Returns the numeral's exact rational value and the
unit. -/
def trySizeAt : Str → Option (ℚ × SizeUnit)
  | [] => none
  | c :: rest =>
    if c = '[' then
      let intDigits := rest.takeWhile isDigit09
      if intDigits.isEmpty then none
      else
        let afterInt := rest.drop intDigits.length
        let fracDigits :=
          if afterInt.head? = some '.' ∧ ¬ (afterInt.tail.takeWhile isDigit09).isEmpty then
            afterInt.tail.takeWhile isDigit09
          else []
        let afterNum :=
          if fracDigits.isEmpty then afterInt else afterInt.tail.drop fracDigits.length
        let afterWs := afterNum.dropWhile isPySpace
        (matchUnitBracket afterWs).map fun u =>
          ((digitsVal intDigits : ℚ) + (digitsVal fracDigits : ℚ) / 10 ^ fracDigits.length, u)
    else none

/-- `self.size_pattern.search(text)`: leftmost match. -/
def searchSize : Str → Option (ℚ × SizeUnit)
  | [] => none
  | c :: rest =>
    match trySizeAt (c :: rest) with
    | some r => some r
    | none => searchSize rest

/-- Attempt `dimension_pattern` at the head of the input:
`(`, digit run, `\s*`, `x` or `×`, `\s*`, digit run, `)`. -/
def tryDimAt : Str → Option (Nat × Nat)
  | '(' :: rest =>
    let w := rest.takeWhile isDigit09
    if w.isEmpty then none
    else
      let afterW := (rest.drop w.length).dropWhile isPySpace
      match afterW with
      | x :: tl =>
        if x = 'x' ∨ x = '×' then
          let tl2 := tl.dropWhile isPySpace
          let h := tl2.takeWhile isDigit09
          if h.isEmpty then none
          else
            match tl2.drop h.length with
            | ')' :: _ => some (digitsVal w, digitsVal h)
            | _ => none
        else none
      | [] => none
  | _ => none

/-- `self.dimension_pattern.search(text)`: leftmost match. -/
def searchDim : Str → Option (Nat × Nat)
  | [] => none
  | c :: rest =>
    match tryDimAt (c :: rest) with
    | some r => some r
    | none => searchDim rest

/-- Round a rational to the nearest integer, ties to even — IEEE-754
round-to-nearest-even restricted to an integer grid. -/
def rnEven (q : ℚ) : ℤ :=
  if q - ⌊q⌋ < 1 / 2 then ⌊q⌋
  else if 1 / 2 < q - ⌊q⌋ then ⌊q⌋ + 1
  else if 2 ∣ ⌊q⌋ then ⌊q⌋ else ⌊q⌋ + 1

/-- The least positive value that rounds to `inf` in binary64: halfway
between the largest finite double `2 ^ 1024 - 2 ^ 971` and `2 ^ 1024`; the
halfway case itself resolves to the even candidate, `inf`. -/
def FLOAT_OVERFLOW : ℚ := 2 ^ 1024 - 2 ^ 970

/-- The exact value of the IEEE-754 binary64 double nearest to `q`
(ties to even), for `q` below `FLOAT_OVERFLOW`: the double grid around a
positive `q` has quantum (unit in the last place) `2 ^ (log2 q - 52)` for
normal magnitudes and `2 ^ (-1074)` for subnormal ones.  Only nonnegative
inputs occur in this development (the regex numerals are nonnegative). -/
def roundDouble (q : ℚ) : ℚ :=
  if q ≤ 0 then 0
  else (rnEven (q / 2 ^ max (Int.log 2 q - 52) (-1074)) : ℚ)
    * 2 ^ max (Int.log 2 q - 52) (-1074)

/-- `float(size_match.group(1))` (line 822): correctly rounded
decimal-to-binary64 conversion; `none` models `inf`. -/
def pyFloatOfRat (q : ℚ) : Option ℚ :=
  if q < FLOAT_OVERFLOW then some (roundDouble q) else none

/-- `size * multipliers.get(unit, 1)` (line 825) in IEEE double arithmetic
— the exact product, correctly rounded, with overflow to `inf` — then
`int(...)` (same line): `int` of `inf` raises `OverflowError`; otherwise
truncation toward zero (the operands here are nonnegative, so truncation
is `Int.floor`). -/
def sizeBytesOfMatch (size : ℚ) (unit : SizeUnit) : Except String Int :=
  match pyFloatOfRat size with
  | none => .error "OverflowError"
  | some f =>
    match pyFloatOfRat (f * multiplier unit) with
    | none => .error "OverflowError"
    | some prod => .ok ⌊prod⌋

/-- The size/dimension fields of `ParsedAssetFile` produced by
`_parse_download_link`. -/
structure DownloadFileInfo where
  size_bytes : Option Int
  dimensions : Option (Nat × Nat)
deriving DecidableEq, Repr

/-- `SvsHtmlParser._parse_download_link` (lines 809-849) restricted to the
size/dimension computation on the link text: `Except.error` models the
uncaught `OverflowError` escaping `parse`. -/
def parse_download_link (text : Str) : Except String DownloadFileInfo :=
  match searchSize text with
  | none => .ok ⟨none, searchDim text⟩
  | some (size, unit) =>
    match sizeBytesOfMatch size unit with
    | .error e => .error e
    | .ok n => .ok ⟨some n, searchDim text⟩

/-! ## 5. Credit extraction — `ingestion/html_parser.py`,
`SvsHtmlParser._extract_credits` (lines 405-585)

The five extraction strategies walk the BeautifulSoup tree; their outputs are
abstracted as the five candidate lists `s1 … s5` (so every markup input is
covered by quantifying over the lists).  The concatenate-then-deduplicate
step (lines 576-585) is embedded exactly. -/

/-- The `ParsedCredit` dataclass. -/
structure ParsedCredit where
  role : String
  name : String
  organization : Option String
deriving DecidableEq, Repr

/-- Python `s.lower().strip()` (ASCII case fold, as produced by this
parser's sources). -/
def pyLowerStrip (s : String) : String := String.mk (pyStrip (s.toLower.toList))

/-- `key = (credit.role.lower().strip(), credit.name.lower().strip())`
(line 581). -/
def normKey (c : ParsedCredit) : String × String :=
  (pyLowerStrip c.role, pyLowerStrip c.name)

/-- The `seen`-set dedup loop of `_extract_credits` (lines 577-584), keeping
the first occurrence of each normalized key. -/
def dedupGo : List ParsedCredit → List (String × String) → List ParsedCredit
  | [], _ => []
  | c :: cs, seen =>
    if normKey c ∈ seen then dedupGo cs seen
    else c :: dedupGo cs (normKey c :: seen)

/-- `_extract_credits`: concatenate the five strategies' candidates in
strategy order, then deduplicate by normalized `(role, name)`. -/
def extract_credits (s1 s2 s3 s4 s5 : List ParsedCredit) : List ParsedCredit :=
  dedupGo (s1 ++ s2 ++ s3 ++ s4 ++ s5) []

/-! ## 6. Embedding persistence — `ingestion/embedding_pipeline.py`,
`EmbeddingPipeline.generate_embeddings_for_chunks` (lines 81-118)

The SQLAlchemy session is a staged/committed pair; `session.add` appends to
staged, `commit` moves staged into committed, `rollback` drops staged.  The
embedding backend `batch_generate_embeddings` is a parameter returning either
one vector per text or a raised error. -/

/-- One row of the `embedding` table as built at lines 101-109. -/
structure EmbeddingRow where
  chunk_id : Nat
  chunk_type : String
  model_name : String
  model_version : String
  dims : Nat
  embedding : List ℚ
  is_current : Bool
deriving DecidableEq, Repr

/-- The model identity exposed by the embedding service. -/
structure EmbeddingModelInfo where
  model_name : String
  model_version : String
  dims : Nat
deriving DecidableEq, Repr

/-- The session: rows staged by `add` but not yet committed, and rows made
durable by `commit`. -/
structure DbSession where
  staged : List EmbeddingRow
  committed : List EmbeddingRow
deriving DecidableEq, Repr

/-- The rows created for a batch: `zip(chunk_ids, embeddings)` with
`is_current=True` (lines 100-110). -/
def embeddingRows (svc : EmbeddingModelInfo) (chunk_type : String)
    (chunks : List (Nat × String)) (vecs : List (List ℚ)) : List EmbeddingRow :=
  ((chunks.map (·.1)).zip vecs).map fun p =>
    ⟨p.1, chunk_type, svc.model_name, svc.model_version, svc.dims, p.2, true⟩

/-- `EmbeddingPipeline.generate_embeddings_for_chunks`: empty batch
short-circuits with 0; on backend success the rows are staged and the
session committed, returning `len(chunks)`; on backend failure the session
is rolled back and the error re-raised. -/
def generate_embeddings_for_chunks (svc : EmbeddingModelInfo)
    (backend : List String → Except String (List (List ℚ)))
    (chunk_type : String) (chunks : List (Nat × String)) (session : DbSession) :
    Except String Nat × DbSession :=
  if chunks.isEmpty then (.ok 0, session)
  else
    match backend (chunks.map (·.2)) with
    | .error e => (.error e, ⟨[], session.committed⟩)
    | .ok vecs =>
      let rows := embeddingRows svc chunk_type chunks vecs
      (.ok chunks.length, ⟨[], session.committed ++ session.staged ++ rows⟩)

/-! ## 7. Content-update backfill — `ingestion/pipeline.py`,
`IngestionPipeline.run_content_update` (lines 416-481) and
`_update_page_content` (lines 483-502)

The store is embedded as the `svs_page` row list plus the side tables the
phase never touches (tags, assets, chunks, relations — kept as uninterpreted
row lists keyed however the schema keys them).  `fetch_page_html` + `parse`
is a parameter `fetchParse`; a per-page exception (`Except.error`) is caught
by the loop, leaving that page unchanged.  Batching and the per-batch
commits do not affect the final store (each page's new state depends only on
its own row and `fetchParse` of its own id), so the phase is embedded as a
map over the page rows; JSON blobs and dates are uninterpreted strings and
timestamps are naturals. -/

/-- One element of the `credits_json` list (line 221 / 498-500). -/
structure CreditJson where
  role : String
  name : String
  organization : Option String
deriving DecidableEq, Repr

/-- One `svs_page` row, restricted to the columns the claims reference. -/
structure SvsPageRow where
  svs_id : Nat
  title : String
  description : Option String
  summary : Option String
  content_json : Option String
  published_date : Option String
  thumbnail_url : Option String
  credits_json : Option (List CreditJson)
  html_crawled_at : Option Nat
  last_checked_at : Option Nat
  api_source : Bool
deriving DecidableEq, Repr

/-- The store: page rows plus the side tables (uninterpreted rows keyed by
`svs_id`) that `run_content_update` never touches. -/
structure Store where
  pages : List SvsPageRow
  page_tags : List (Nat × String)
  assets : List (Nat × String)
  chunks : List (Nat × String)
  relations : List (Nat × Nat)
deriving DecidableEq, Repr

/-- What `_update_page_content` reads from the parsed page. -/
structure ParsedPageLite where
  content_json : Option String
  credits : List CreditJson
deriving DecidableEq, Repr

/-- Python truthiness of `page.credits_json` (`None` or `[]` are falsy). -/
def credsFalsy : Option (List CreditJson) → Bool
  | none => true
  | some l => l.isEmpty

/-- `IngestionPipeline._update_page_content` (lines 483-502): overwrite
`content_json`; overwrite `credits_json` only when currently falsy and the
re-extraction found credits; stamp `last_checked_at`. -/
def update_page_content (now : Nat) (parsed : ParsedPageLite) (p : SvsPageRow) :
    SvsPageRow :=
  let p1 := { p with content_json := parsed.content_json }
  let p2 :=
    if credsFalsy p1.credits_json ∧ ¬ parsed.credits.isEmpty then
      { p1 with credits_json := some parsed.credits }
    else p1
  { p2 with last_checked_at := some now }

/-- The selection predicate of `run_content_update` (lines 440-443):
crawled before, rich content missing. -/
def needs_content_update (p : SvsPageRow) : Bool :=
  p.html_crawled_at.isSome && p.content_json.isNone

/-- `IngestionPipeline.run_content_update`: each selected page is re-fetched
and updated; a per-page failure is caught and leaves the page unchanged;
unselected pages and all side tables are untouched. -/
def run_content_update (now : Nat) (fetchParse : Nat → Except String ParsedPageLite)
    (db : Store) : Store :=
  { db with
    pages := db.pages.map fun p =>
      if needs_content_update p then
        match fetchParse p.svs_id with
        | .ok parsed => update_page_content now parsed p
        | .error _ => p
      else p }

/-! ## 8. Concrete inputs used by counterexamples and witnesses -/

/-- Three sentences: 196 chars (49 est. tokens), 3075 chars (768 est.
tokens), 200 chars (50 est. tokens); none contains an internal sentence or
clause boundary. -/
def exSent1 : Str := 'A' :: (List.replicate 194 'a' ++ ['.'])

/-- Second example sentence: 3075 characters, estimated 768 tokens — at the
default `max_tokens` but not above it. -/
def exSent2 : Str := 'B' :: (List.replicate 3073 'a' ++ ['.'])

/-- Third example sentence: 200 characters, estimated 50 tokens. -/
def exSent3 : Str := 'C' :: (List.replicate 198 'a' ++ ['.'])

/-- The three sentences joined by single spaces: 3473 characters, estimated
868 tokens, so `chunk_text` takes the sentence-splitting path. -/
def exText : Str := exSent1 ++ ' ' :: exSent2 ++ ' ' :: exSent3

/-- A download-link text advertising a 341-digit kilobyte size (`1`
followed by 340 zeros): CPython `float` of the numeral is `inf` and
`int(inf)` raises `OverflowError`. -/
def exOverflowLink : Str := '[' :: '1' :: (List.replicate 340 '0' ++ [' ', 'K', 'B', ']'])

/-- A download-link text with both a dimension pattern `(10x20)` and a
321-digit overflowing size. -/
def exOverflowLink2 : Str :=
  'z' :: ' ' :: '(' :: '1' :: '0' :: 'x' :: '2' :: '0' :: ')' :: ' ' ::
    ('[' :: '1' :: (List.replicate 320 '0' ++ [' ', 'K', 'B', ']']))

/-! # Theorems -/

/-! ## Helper lemmas (shared) -/

theorem takeWhile_replicate_append (p : Char → Bool) (c : Char) (hp : p c = true)
    (n : Nat) (l : List Char) :
    (List.replicate n c ++ l).takeWhile p = List.replicate n c ++ l.takeWhile p := by
  induction n with
  | zero => simp
  | succ n ih => simp [List.replicate_succ, List.takeWhile_cons, hp, ih]

theorem drop_replicate_append (n : Nat) (c : Char) (l : List Char) :
    (List.replicate n c ++ l).drop n = l := by
  simpa using List.drop_left (List.replicate n c) l

theorem foldl_digits_replicate_zero (a n : Nat) :
    List.foldl (fun m c => 10 * m + (c.toNat - 48)) a (List.replicate n '0') = a * 10 ^ n := by
  induction n generalizing a with
  | zero => simp
  | succ n ih =>
    rw [List.replicate_succ, List.foldl_cons, ih]
    have h0 : '0'.toNat - 48 = 0 := rfl
    rw [h0, pow_succ]
    ring

theorem digitsVal_one_zeros (n : Nat) :
    digitsVal ('1' :: List.replicate n '0') = 10 ^ n := by
  rw [digitsVal, List.foldl_cons, foldl_digits_replicate_zero]
  have h1 : 10 * 0 + ('1'.toNat - 48) = 1 := rfl
  rw [h1, one_mul]

/-- One scan step of `re.search` when the current position does not open a
bracket, so the size pattern cannot match there. -/
theorem searchSize_cons_not_bracket (c : Char) (rest : Str) (h : ¬ c = '[') :
    searchSize (c :: rest) = searchSize rest := by
  rw [searchSize.eq_def]
  simp [trySizeAt, h]

/-- The size pattern matching at a `[` holding the numeral `1` followed by
`n` zeros, unit `KB`. -/
theorem trySizeAt_pow10_kb (n : Nat) :
    trySizeAt ('[' :: '1' :: (List.replicate n '0' ++ [' ', 'K', 'B', ']'])) =
      some ((10 ^ n : ℚ), SizeUnit.kb) := by
  have htw : ('1' :: (List.replicate n '0' ++ [' ', 'K', 'B', ']'])).takeWhile isDigit09 =
      '1' :: List.replicate n '0' := by
    rw [List.takeWhile_cons, show isDigit09 '1' = true from rfl,
      takeWhile_replicate_append isDigit09 '0' rfl,
      show [' ', 'K', 'B', ']'].takeWhile isDigit09 = [] from rfl, List.append_nil]
    simp
  have hdrop : ('1' :: (List.replicate n '0' ++ [' ', 'K', 'B', ']'])).drop
      ('1' :: List.replicate n '0').length = [' ', 'K', 'B', ']'] := by
    rw [List.length_cons, List.length_replicate, List.drop_succ_cons,
      drop_replicate_append]
  simp only [trySizeAt, if_true, htw, hdrop]
  simp
  refine ⟨rfl, ?_⟩
  rw [digitsVal_one_zeros, show digitsVal [] = 0 from rfl]
  push_cast
  ring

/-- `re.search` finding the overflowing `KB` size at the head of the text. -/
theorem searchSize_pow10_kb (n : Nat) :
    searchSize ('[' :: '1' :: (List.replicate n '0' ++ [' ', 'K', 'B', ']'])) =
      some ((10 ^ n : ℚ), SizeUnit.kb) := by
  rw [searchSize.eq_def]
  simp [trySizeAt_pow10_kb n]

/-- `Int.log 2` is characterised by the binade sandwich. -/
theorem int_log2_eq (q : ℚ) (e : ℤ) (h1 : (2 : ℚ) ^ e ≤ q) (h2 : q < (2 : ℚ) ^ (e + 1)) :
    Int.log 2 q = e := by
  have hq : (0 : ℚ) < q := lt_of_lt_of_le (by positivity) h1
  have hle : e ≤ Int.log 2 q := by
    rw [← Int.zpow_le_iff_le_log one_lt_two hq]
    exact_mod_cast h1
  have hlt : Int.log 2 q < e + 1 := by
    rw [← Int.lt_zpow_iff_log_lt one_lt_two hq]
    exact_mod_cast h2
  omega

/-- Round-to-nearest-even fixes integers. -/
theorem rnEven_intCast (n : ℤ) : rnEven ((n : ℚ)) = n := by
  norm_num [rnEven]

/-- A rational in the binade `[2^e, 2^(e+1))` that lies on the binary64
grid (its quotient by the grid quantum is an integer) is its own nearest
double: `roundDouble` fixes it. -/
theorem roundDouble_fix (q : ℚ) (e n : ℤ)
    (h1 : (2 : ℚ) ^ e ≤ q) (h2 : q < (2 : ℚ) ^ (e + 1))
    (hn : q / 2 ^ max (e - 52) (-1074) = (n : ℚ)) :
    roundDouble q = q := by
  have hq : (0 : ℚ) < q := lt_of_lt_of_le (by positivity) h1
  rw [roundDouble, if_neg (not_le.2 hq), int_log2_eq q e h1 h2, hn, rnEven_intCast, ← hn,
    div_mul_cancel₀ q (zpow_ne_zero _ (by norm_num))]

/-! ## C1 -/

/-- C1: with `max_retries=3, retry_delay=5` the `_request` loop makes only
three attempts (`for attempt in range(self.max_retries)`), so a script
answering 503 on the first three attempts and 200 on the fourth never
reaches the fourth attempt: the loop sleeps 5 + 10 + 20 seconds (including a
final backoff sleep after which no retry happens) and re-raises the last
503.  A 404 raises immediately, with no retry and no sleep.  Two consecutive
503s followed by a 200 on the third attempt do succeed, after sleeping
5 + 10. -/
theorem c1_three_attempts_only :
    svs_request 3 5 (fun i => if i < 3 then .httpError 503 else .ok) =
      ⟨.error (some (.httpError 503)), 5 + 10 + 20⟩
  ∧ svs_request 3 5 (fun _ => .httpError 404) = ⟨.error (some (.httpError 404)), 0⟩
  ∧ svs_request 3 5 (fun i => if i < 2 then .httpError 503 else .ok) = ⟨.ok (), 5 + 10⟩ := by
  have hr : List.range 3 = [0, 1, 2] := rfl
  refine ⟨?_, ?_, ?_⟩ <;>
    · simp only [svs_request, hr, requestGo, isRetryableStatus]
      norm_num

/-! ## C4 -/

/-- C4: `parse` is not total — a download link advertising a 341-digit
kilobyte size reaches `int(size * multiplier)` in `_parse_download_link`
with `float(...)` having overflowed to `inf`, and `int(inf)` raises
`OverflowError`, which escapes `parse` uncaught. -/
theorem c4_parse_raises_on_overflow_size :
    parse_download_link exOverflowLink = .error "OverflowError" := by
  have hs : searchSize exOverflowLink = some ((10 ^ 340 : ℚ), SizeUnit.kb) :=
    searchSize_pow10_kb 340
  have hbig : ¬ ((10 : ℚ) ^ 340 < FLOAT_OVERFLOW) := by
    norm_num [FLOAT_OVERFLOW]
  simp [parse_download_link, hs, sizeBytesOfMatch, pyFloatOfRat, hbig]

/-! ## C7 -/

/-- C7 counterexample: a link text containing both a dimension pattern
`(10x20)` and a bracketed size whose 321-digit numeral overflows double
precision does not yield a parsed file record at all — `_parse_download_link`
raises `OverflowError` — refuting the claim for this link. -/
theorem c7_counterexample_overflow :
    searchDim exOverflowLink2 = some (10, 20)
  ∧ parse_download_link exOverflowLink2 = .error "OverflowError" := by
  have hs : searchSize exOverflowLink2 = some ((10 ^ 320 : ℚ), SizeUnit.kb) := by
    show searchSize ('z' :: _) = _
    rw [searchSize_cons_not_bracket 'z' _ (by decide),
      searchSize_cons_not_bracket ' ' _ (by decide),
      searchSize_cons_not_bracket '(' _ (by decide),
      searchSize_cons_not_bracket '1' _ (by decide),
      searchSize_cons_not_bracket '0' _ (by decide),
      searchSize_cons_not_bracket 'x' _ (by decide),
      searchSize_cons_not_bracket '2' _ (by decide),
      searchSize_cons_not_bracket '0' _ (by decide),
      searchSize_cons_not_bracket ')' _ (by decide),
      searchSize_cons_not_bracket ' ' _ (by decide)]
    exact searchSize_pow10_kb 320
  have hbig : ¬ ((10 : ℚ) ^ 320 < FLOAT_OVERFLOW) := by
    norm_num [FLOAT_OVERFLOW]
  constructor
  · decide
  · simp [parse_download_link, hs, sizeBytesOfMatch, pyFloatOfRat, hbig]

/-- C7 (amended): whenever the size pattern matches with a numeral whose
value is exactly representable as an IEEE-754 double, whose product with
the unit multiplier (KB = 1024, MB = 1024², GB = 1024³) is also exactly
representable and below the double overflow boundary, and the dimension
pattern matches with width `w` and height `h`, the parsed record has
`size_bytes` equal to the truncated product and `dimensions = (w, h)`; in
particular `[650.0 MB] (1920x1080)` yields exactly 681574400 bytes and
dimensions `(1920, 1080)`.  For numerals that are not exactly
representable the code computes `int(float(numeral) * multiplier)` in
double arithmetic, which can differ from the exact truncated product:
`[0.99999999999999999 KB]` yields 1024 bytes (the numeral rounds to the
double `1.0`), not `⌊0.99999999999999999 * 1024⌋ = 1023`.  A numeral
beyond the double range instead makes parsing raise (see the
counterexample). -/
theorem c7_download_link_size_dims (text : Str) (q : ℚ) (u : SizeUnit) (w h : Nat) :
    (searchSize text = some (q, u) → 0 ≤ q → roundDouble q = q →
      q * multiplier u < FLOAT_OVERFLOW →
      roundDouble (q * multiplier u) = q * multiplier u →
      searchDim text = some (w, h) →
      parse_download_link text = .ok ⟨some ⌊q * multiplier u⌋, some (w, h)⟩)
  ∧ parse_download_link ("[650.0 MB] (1920x1080)".toList) =
      .ok ⟨some 681574400, some (1920, 1080)⟩
  ∧ parse_download_link ("[0.99999999999999999 KB]".toList) = .ok ⟨some 1024, none⟩ := by
  refine ⟨?_, ?_, ?_⟩
  · intro hsize hq0 hrep hprodlt hprodrep hdim
    have hmul : (1 : ℚ) ≤ multiplier u := by cases u <;> norm_num [multiplier]
    have hqlt : q < FLOAT_OVERFLOW :=
      lt_of_le_of_lt (le_mul_of_one_le_right hq0 hmul) hprodlt
    simp only [parse_download_link, hsize, sizeBytesOfMatch, pyFloatOfRat, if_pos hqlt,
      hrep, if_pos hprodlt, hprodrep, hdim]
  · have hs : searchSize ("[650.0 MB] (1920x1080)".toList) =
        some (((650 : Nat) : ℚ) + ((0 : Nat) : ℚ) / 10 ^ (1 : Nat), SizeUnit.mb) := rfl
    have hs' : searchSize ("[650.0 MB] (1920x1080)".toList) =
        some ((650 : ℚ), SizeUnit.mb) := by
      rw [hs]; norm_num
    have hd : searchDim ("[650.0 MB] (1920x1080)".toList) = some (1920, 1080) := by decide
    have hqlt : (650 : ℚ) < FLOAT_OVERFLOW := by norm_num [FLOAT_OVERFLOW]
    have hrd : roundDouble (650 : ℚ) = 650 :=
      roundDouble_fix 650 9 (650 * 2 ^ 43) (by norm_num) (by norm_num)
        (by rw [show max ((9 : ℤ) - 52) (-1074) = (-43 : ℤ) by norm_num]
            push_cast; norm_num)
    have hm : (650 : ℚ) * multiplier .mb = 681574400 := by norm_num [multiplier]
    have hplt : (650 : ℚ) * multiplier .mb < FLOAT_OVERFLOW := by
      norm_num [multiplier, FLOAT_OVERFLOW]
    have hrdp : roundDouble ((650 : ℚ) * multiplier .mb) = (650 : ℚ) * multiplier .mb := by
      rw [hm]
      exact roundDouble_fix 681574400 29 (681574400 * 2 ^ 23) (by norm_num) (by norm_num)
        (by rw [show max ((29 : ℤ) - 52) (-1074) = (-23 : ℤ) by norm_num]
            push_cast; norm_num)
    have hfloor : ⌊(650 : ℚ) * multiplier .mb⌋ = (681574400 : ℤ) := by
      rw [hm, show (681574400 : ℚ) = ((681574400 : ℤ) : ℚ) by norm_num, Int.floor_intCast]
    simp only [parse_download_link, hs', sizeBytesOfMatch, pyFloatOfRat, if_pos hqlt,
      hrd, if_pos hplt, hrdp, hfloor, hd]
  · have hs : searchSize ("[0.99999999999999999 KB]".toList) =
        some (((0 : Nat) : ℚ) + ((99999999999999999 : Nat) : ℚ) / 10 ^ (17 : Nat),
          SizeUnit.kb) := rfl
    have hs' : searchSize ("[0.99999999999999999 KB]".toList) =
        some ((99999999999999999 : ℚ) / 10 ^ 17, SizeUnit.kb) := by
      rw [hs]; norm_num
    have hd : searchDim ("[0.99999999999999999 KB]".toList) = none := by decide
    have hqlt : (99999999999999999 : ℚ) / 10 ^ 17 < FLOAT_OVERFLOW := by
      norm_num [FLOAT_OVERFLOW]
    have hlog : Int.log 2 ((99999999999999999 : ℚ) / 10 ^ 17) = -1 :=
      int_log2_eq _ (-1) (by norm_num) (by norm_num)
    have hx : (99999999999999999 : ℚ) / 10 ^ 17 / 2 ^ (-53 : ℤ)
        = (99999999999999999 * 2 ^ 53 / 10 ^ 17 : ℚ) := by
      norm_num
    have hK : ⌊(99999999999999999 * 2 ^ 53 / 10 ^ 17 : ℚ)⌋ = (9007199254740991 : ℤ) := by
      rw [Int.floor_eq_iff]
      constructor <;> norm_num
    have hrn : rnEven (99999999999999999 * 2 ^ 53 / 10 ^ 17 : ℚ) = 9007199254740992 := by
      rw [rnEven, hK, if_neg (by norm_num), if_pos (by norm_num)]
      norm_num
    have hrd : roundDouble ((99999999999999999 : ℚ) / 10 ^ 17) = 1 := by
      rw [roundDouble, if_neg (by norm_num), hlog,
        show max ((-1 : ℤ) - 52) (-1074) = (-53 : ℤ) by norm_num, hx, hrn]
      norm_num
    have hm : (1 : ℚ) * multiplier .kb = 1024 := by norm_num [multiplier]
    have hplt : (1024 : ℚ) < FLOAT_OVERFLOW := by norm_num [FLOAT_OVERFLOW]
    have hrdp : roundDouble (1024 : ℚ) = 1024 :=
      roundDouble_fix 1024 10 (2 ^ 52) (by norm_num) (by norm_num)
        (by rw [show max ((10 : ℤ) - 52) (-1074) = (-42 : ℤ) by norm_num]
            push_cast; norm_num)
    have hfloor : ⌊(1024 : ℚ)⌋ = (1024 : ℤ) := by
      rw [show (1024 : ℚ) = ((1024 : ℤ) : ℚ) by norm_num, Int.floor_intCast]
    simp only [parse_download_link, hs', sizeBytesOfMatch, pyFloatOfRat, if_pos hqlt,
      hrd, hm, if_pos hplt, hrdp, hfloor, hd]

/-- C7 witness: the amended theorem applied to the concrete link text
`a (2x3) [4.5 KB]` — both `4.5` and `4.5 * 1024 = 4608` are exactly
representable doubles. -/
theorem c7_download_link_size_dims_witness :
    parse_download_link ("a (2x3) [4.5 KB]".toList) =
      .ok ⟨some ⌊(((4 : Nat) : ℚ) + ((5 : Nat) : ℚ) / 10 ^ (1 : Nat)) * multiplier .kb⌋,
        some (2, 3)⟩ :=
  (c7_download_link_size_dims ("a (2x3) [4.5 KB]".toList)
      (((4 : Nat) : ℚ) + ((5 : Nat) : ℚ) / 10 ^ (1 : Nat)) .kb 2 3).1
    rfl (by norm_num)
    (roundDouble_fix _ 2 (9 * 2 ^ 49) (by norm_num) (by norm_num)
      (by rw [show max ((2 : ℤ) - 52) (-1074) = (-50 : ℤ) by norm_num]
          push_cast; norm_num))
    (by norm_num [FLOAT_OVERFLOW, multiplier])
    (roundDouble_fix _ 12 (4608 * 2 ^ 40) (by norm_num [multiplier])
      (by norm_num [multiplier])
      (by rw [show max ((12 : ℤ) - 52) (-1074) = (-40 : ℤ) by norm_num]
          push_cast; norm_num [multiplier]))
    (by decide)

/-! ## C2 -/

/-- C2: fusion scoring.  Every merged row scores its chunk as
`keyword_weight*keyword_score + vector_weight*vector_score` with a missing
side contributing 0, multiplied by 1.2 exactly when the chunk appears in
both result maps, capped at 1.0 (`specFusionScore` is that rule transcribed
from the spec); the merged rows cover exactly the union of the two key
sets; the returned ranking is sorted descending by combined score, truncated
to `top_k`, only keeps rows at or above `min_score`, and only contains
merged rows.  In particular keyword 0.8 / vector 0.9 with weights 0.3/0.7
caps at exactly 1.0, and a vector-only chunk of score 0.5 with weight 0.7
scores exactly 0.35 with no boost. -/
theorem c2_fusion_scoring (kw vec : List (Nat × ℚ)) (w1 w2 min_score : ℚ) (top_k : Nat) :
    (∀ r ∈ merge_results kw vec w1 w2,
        r.combined_score = specFusionScore w1 w2 (keyLookup kw r.chunk_id) (keyLookup vec r.chunk_id)
      ∧ r.keyword_score = (keyLookup kw r.chunk_id).getD 0
      ∧ r.vector_score = (keyLookup vec r.chunk_id).getD 0)
  ∧ (∀ id, (∃ r ∈ merge_results kw vec w1 w2, r.chunk_id = id) ↔
        (id ∈ kw.map (·.1) ∨ id ∈ vec.map (·.1)))
  ∧ List.Sorted scoreGE (retrieve_rank (merge_results kw vec w1 w2) min_score top_k)
  ∧ (retrieve_rank (merge_results kw vec w1 w2) min_score top_k).length ≤ top_k
  ∧ (∀ r ∈ retrieve_rank (merge_results kw vec w1 w2) min_score top_k,
        min_score ≤ r.combined_score ∧ r ∈ merge_results kw vec w1 w2)
  ∧ merge_results [(1, 4/5)] [(1, 9/10)] (3/10) (7/10) = [⟨1, 4/5, 9/10, 1⟩]
  ∧ merge_results [] [(2, 1/2)] (3/10) (7/10) = [⟨2, 0, 1/2, 7/20⟩] := by
  refine ⟨?_, ?_, ?_, ?_, ?_, ?_, ?_⟩
  · intro r hr
    simp only [merge_results, List.mem_map] at hr
    obtain ⟨id, _, rfl⟩ := hr
    refine ⟨?_, rfl, rfl⟩
    simp [specFusionScore]
  · intro id
    constructor
    · rintro ⟨r, hr, rfl⟩
      simp only [merge_results, List.mem_map] at hr
      obtain ⟨i, hi, rfl⟩ := hr
      simp only [List.mem_append, List.mem_filter] at hi
      rcases hi with h | ⟨h, _⟩
      · exact Or.inl h
      · exact Or.inr h
    · intro h
      have hmem : id ∈ (kw.map (·.1)) ++ (vec.map (·.1)).filter
          (fun i => ¬ (kw.map (·.1)).contains i) := by
        rcases h with h | h
        · exact List.mem_append_left _ h
        · by_cases hk : id ∈ kw.map (·.1)
          · exact List.mem_append_left _ hk
          · refine List.mem_append_right _ ?_
            refine List.mem_filter.2 ⟨h, ?_⟩
            simpa using hk
      exact ⟨_, List.mem_map_of_mem _ hmem, rfl⟩
  · exact ((List.sorted_insertionSort scoreGE _).sublist (List.take_sublist _ _))
  · calc (retrieve_rank (merge_results kw vec w1 w2) min_score top_k).length
        = min top_k _ := List.length_take _ _
      _ ≤ top_k := min_le_left _ _
  · intro r hr
    have hr2 : r ∈ (merge_results kw vec w1 w2).filter
        (fun r => decide (min_score ≤ r.combined_score)) := by
      have := (List.take_sublist top_k _).subset hr
      exact (List.mem_insertionSort scoreGE).1 this
    have := List.mem_filter.1 hr2
    exact ⟨by simpa using this.2, this.1⟩
  · simp only [merge_results, keyLookup]
    norm_num [List.find?, specFusionScore, min_def]
  · simp only [merge_results, keyLookup]
    norm_num [List.find?, specFusionScore, min_def]

/-- C2 witness: the fusion theorem applied to the two concrete maps of the
spec's examples. -/
theorem c2_fusion_scoring_witness :
    merge_results [(1, 4/5)] [(1, 9/10)] (3/10) (7/10) = [⟨1, 4/5, 9/10, 1⟩]
  ∧ merge_results [] [(2, 1/2)] (3/10) (7/10) = [⟨2, 0, 1/2, 7/20⟩] :=
  ⟨(c2_fusion_scoring [(1, 4/5)] [(1, 9/10)] (3/10) (7/10) (1/10) 10).2.2.2.2.2.1,
   (c2_fusion_scoring [] [(2, 1/2)] (3/10) (7/10) (1/10) 10).2.2.2.2.2.2⟩

/-! ## C5 -/

/-- C5: per-batch atomicity of embedding generation.  An empty batch is a
no-op returning 0.  When the backend succeeds, the call returns the batch
size and commits exactly the batch's rows (after any previously staged
rows), one row per chunk when the backend returns one vector per text, each
marked current and carrying its chunk's id; the staging area is empty
afterwards.  When the backend raises, the session is rolled back — nothing
new is committed, nothing stays staged — and the error propagates. -/
theorem c5_embedding_batch_atomic (svc : EmbeddingModelInfo)
    (backend : List String → Except String (List (List ℚ)))
    (ctype : String) (chunks : List (Nat × String)) (session : DbSession) :
    (chunks = [] →
      generate_embeddings_for_chunks svc backend ctype chunks session = (.ok 0, session))
  ∧ (∀ vecs, backend (chunks.map (·.2)) = .ok vecs → chunks ≠ [] →
      generate_embeddings_for_chunks svc backend ctype chunks session =
        (.ok chunks.length,
          ⟨[], session.committed ++ session.staged ++ embeddingRows svc ctype chunks vecs⟩)
      ∧ (vecs.length = chunks.length →
          (embeddingRows svc ctype chunks vecs).length = chunks.length
        ∧ (embeddingRows svc ctype chunks vecs).map (·.chunk_id) = chunks.map (·.1)
        ∧ ∀ row ∈ embeddingRows svc ctype chunks vecs, row.is_current = true))
  ∧ (∀ e, backend (chunks.map (·.2)) = .error e → chunks ≠ [] →
      generate_embeddings_for_chunks svc backend ctype chunks session =
        (.error e, ⟨[], session.committed⟩)) := by
  refine ⟨?_, ?_, ?_⟩
  · rintro rfl
    simp [generate_embeddings_for_chunks]
  · intro vecs hok hne
    have hiff : chunks.isEmpty = false := by
      cases chunks with
      | nil => exact absurd rfl hne
      | cons c cs => rfl
    constructor
    · simp [generate_embeddings_for_chunks, hiff, hok]
    · intro hlen
      refine ⟨?_, ?_, ?_⟩
      · simp [embeddingRows, List.length_zip, hlen]
      · rw [embeddingRows, List.map_map]
        have : ((chunks.map (·.1)).zip vecs).map
            ((fun row => row.chunk_id) ∘ fun p =>
              (⟨p.1, ctype, svc.model_name, svc.model_version, svc.dims, p.2, true⟩ :
                EmbeddingRow)) = ((chunks.map (·.1)).zip vecs).map Prod.fst := rfl
        rw [this, List.map_fst_zip]
        simp [hlen]
      · intro row hrow
        simp only [embeddingRows, List.mem_map] at hrow
        obtain ⟨p, _, rfl⟩ := hrow
        rfl
  · intro e herr hne
    have hiff : chunks.isEmpty = false := by
      cases chunks with
      | nil => exact absurd rfl hne
      | cons c cs => rfl
    simp [generate_embeddings_for_chunks, hiff, herr]

/-- C5 witness: a two-chunk batch against a backend that returns one unit
vector per text, and against a backend that raises. -/
theorem c5_embedding_batch_atomic_witness :
    generate_embeddings_for_chunks ⟨"m", "1", 2⟩ (fun ts => .ok (ts.map (fun _ => [1, 0])))
      "page" [(10, "a"), (11, "b")] ⟨[], []⟩ =
      (.ok 2, ⟨[], embeddingRows ⟨"m", "1", 2⟩ "page" [(10, "a"), (11, "b")]
        [[1, 0], [1, 0]]⟩)
  ∧ generate_embeddings_for_chunks ⟨"m", "1", 2⟩ (fun _ => .error "backend down")
      "page" [(10, "a"), (11, "b")] ⟨[], []⟩ = (.error "backend down", ⟨[], []⟩) := by
  constructor
  · have h := ((c5_embedding_batch_atomic ⟨"m", "1", 2⟩
      (fun ts => .ok (ts.map (fun _ => [1, 0]))) "page" [(10, "a"), (11, "b")]
      ⟨[], []⟩).2.1 [[1, 0], [1, 0]] rfl (by simp)).1
    simpa using h
  · exact (c5_embedding_batch_atomic ⟨"m", "1", 2⟩ (fun _ => .error "backend down")
      "page" [(10, "a"), (11, "b")] ⟨[], []⟩).2.2 "backend down" rfl (by simp)

/-! ## C6 -/

/-- Pairs of a list zipped with its image under a map. -/
theorem zip_map_self_mem {α : Type} (g : α → α) (l : List α) :
    ∀ pr ∈ l.zip (l.map g), pr.2 = g pr.1 := by
  induction l with
  | nil => intro pr h; cases h
  | cons a as ih =>
    intro pr h
    rcases List.mem_cons.1 h with h | h
    · rw [h]
    · exact ih _ h

/-- C6: the content-update backfill selects exactly the pages that were
crawled before (`html_crawled_at` set) but lack `content_json`; an
unselected page is returned untouched; a selected page keeps its `svs_id`,
title, description, summary, publish date, thumbnail, crawl timestamp and
api-source flag, keeps its credits whenever they were previously nonempty,
and the side tables (tags, assets, chunks, relations) are untouched
entirely. -/
theorem c6_content_update_frame (now : Nat)
    (fetchParse : Nat → Except String ParsedPageLite) (db : Store) :
    (run_content_update now fetchParse db).page_tags = db.page_tags
  ∧ (run_content_update now fetchParse db).assets = db.assets
  ∧ (run_content_update now fetchParse db).chunks = db.chunks
  ∧ (run_content_update now fetchParse db).relations = db.relations
  ∧ (run_content_update now fetchParse db).pages.length = db.pages.length
  ∧ ∀ pr ∈ db.pages.zip (run_content_update now fetchParse db).pages,
      (needs_content_update pr.1 = false → pr.2 = pr.1)
    ∧ (needs_content_update pr.1 = true →
        pr.1.html_crawled_at.isSome = true ∧ pr.1.content_json = none
      ∧ pr.2.svs_id = pr.1.svs_id ∧ pr.2.title = pr.1.title
      ∧ pr.2.description = pr.1.description ∧ pr.2.summary = pr.1.summary
      ∧ pr.2.published_date = pr.1.published_date
      ∧ pr.2.thumbnail_url = pr.1.thumbnail_url
      ∧ pr.2.html_crawled_at = pr.1.html_crawled_at
      ∧ pr.2.api_source = pr.1.api_source
      ∧ (credsFalsy pr.1.credits_json = false → pr.2.credits_json = pr.1.credits_json)) := by
  refine ⟨rfl, rfl, rfl, rfl, by simp [run_content_update], ?_⟩
  intro pr hpr
  have h2 := zip_map_self_mem _ _ pr hpr
  constructor
  · intro hsel
    rw [h2, hsel]
    simp
  · intro hsel
    have hcrawl : pr.1.html_crawled_at.isSome = true ∧ pr.1.content_json = none := by
      have := hsel
      simp only [needs_content_update, Bool.and_eq_true, Option.isNone_iff_eq_none] at this
      exact this
    refine ⟨hcrawl.1, hcrawl.2, ?_⟩
    rw [h2, hsel]
    simp only [if_true]
    cases hfp : fetchParse pr.1.svs_id with
    | error e => simp
    | ok parsed =>
      simp only [update_page_content]
      by_cases hc : credsFalsy pr.1.credits_json ∧ ¬ parsed.credits.isEmpty
      · rw [if_pos hc]
        refine ⟨rfl, rfl, rfl, rfl, rfl, rfl, rfl, rfl, ?_⟩
        intro hfalse
        exact absurd hc.1 (by simp [hfalse])
      · rw [if_neg hc]
        exact ⟨rfl, rfl, rfl, rfl, rfl, rfl, rfl, rfl, fun _ => rfl⟩

/-- C6 witness: a two-page store — one page already rich (untouched), one
selected page whose untouched fields are checked concretely. -/
theorem c6_content_update_frame_witness :
    ∀ pr ∈ ([⟨1, "t", none, none, some "rich", none, none, none, some 5, none, true⟩,
        ⟨2, "u", some "d", none, none, some "2024-01-01", none, some [⟨"r", "n", none⟩],
          some 7, none, false⟩] : List SvsPageRow).zip
        (run_content_update 9 (fun _ => .ok ⟨some "new", [⟨"a", "b", none⟩]⟩)
          ⟨[⟨1, "t", none, none, some "rich", none, none, none, some 5, none, true⟩,
            ⟨2, "u", some "d", none, none, some "2024-01-01", none, some [⟨"r", "n", none⟩],
              some 7, none, false⟩], [], [], [], []⟩).pages,
      (needs_content_update pr.1 = false → pr.2 = pr.1) := by
  intro pr hpr
  exact ((c6_content_update_frame 9 (fun _ => .ok ⟨some "new", [⟨"a", "b", none⟩]⟩)
    ⟨[⟨1, "t", none, none, some "rich", none, none, none, some 5, none, true⟩,
      ⟨2, "u", some "d", none, none, some "2024-01-01", none, some [⟨"r", "n", none⟩],
        some 7, none, false⟩], [], [], [], []⟩).2.2.2.2.2 pr hpr).1

/-! ## C8 -/

/-- Nothing output by the dedup loop carries a key already in `seen`. -/
theorem dedupGo_key_not_seen :
    ∀ (l : List ParsedCredit) (seen : List (String × String)),
      ∀ c ∈ dedupGo l seen, normKey c ∉ seen := by
  intro l
  induction l with
  | nil => intro seen c hc; cases hc
  | cons a as ih =>
    intro seen c hc
    rw [dedupGo] at hc
    by_cases ha : normKey a ∈ seen
    · rw [if_pos ha] at hc
      exact ih seen c hc
    · rw [if_neg ha] at hc
      rcases List.mem_cons.1 hc with h | h
      · rw [h]; exact ha
      · have := ih (normKey a :: seen) c h
        exact fun hmem => this (List.mem_cons_of_mem _ hmem)

/-- Each output of the dedup loop is the first element of the input carrying
its key. -/
theorem dedupGo_first_occurrence :
    ∀ (l : List ParsedCredit) (seen : List (String × String)),
      ∀ c ∈ dedupGo l seen, l.find? (fun x => normKey x == normKey c) = some c := by
  intro l
  induction l with
  | nil => intro seen c hc; cases hc
  | cons a as ih =>
    intro seen c hc
    rw [dedupGo] at hc
    by_cases ha : normKey a ∈ seen
    · rw [if_pos ha] at hc
      have hne : ¬ normKey a = normKey c := by
        intro he
        exact dedupGo_key_not_seen as seen c hc (he ▸ ha)
      rw [List.find?_cons_of_neg _ (by simpa using hne)]
      exact ih seen c hc
    · rw [if_neg ha] at hc
      rcases List.mem_cons.1 hc with h | h
      · rw [h] at hc ⊢
        exact List.find?_cons_of_pos _ (by simp)
      · have hnotin := dedupGo_key_not_seen as (normKey a :: seen) c h
        have hne : ¬ normKey a = normKey c := by
          intro he
          exact hnotin (he ▸ List.mem_cons_self _ _)
        rw [List.find?_cons_of_neg _ (by simpa using hne)]
        exact ih (normKey a :: seen) c h

/-- The dedup loop output is a sublist of its input. -/
theorem dedupGo_sublist :
    ∀ (l : List ParsedCredit) (seen : List (String × String)),
      List.Sublist (dedupGo l seen) l := by
  intro l
  induction l with
  | nil => intro seen; simp [dedupGo]
  | cons a as ih =>
    intro seen
    rw [dedupGo]
    by_cases ha : normKey a ∈ seen
    · rw [if_pos ha]
      exact (ih seen).cons a
    · rw [if_neg ha]
      exact (ih (normKey a :: seen)).cons₂ a

/-- Every input key not blocked by `seen` is represented in the output. -/
theorem dedupGo_covers :
    ∀ (l : List ParsedCredit) (seen : List (String × String)),
      ∀ c ∈ l, normKey c ∉ seen → ∃ d ∈ dedupGo l seen, normKey d = normKey c := by
  intro l
  induction l with
  | nil => intro seen c hc; cases hc
  | cons a as ih =>
    intro seen c hc hns
    rw [dedupGo]
    by_cases ha : normKey a ∈ seen
    · rw [if_pos ha]
      rcases List.mem_cons.1 hc with h | h
      · exact absurd (h ▸ hns) (fun hn => hn ha)
      · exact ih seen c h hns
    · rw [if_neg ha]
      rcases List.mem_cons.1 hc with h | h
      · exact ⟨a, List.mem_cons_self _ _, (h ▸ rfl : normKey a = normKey c)⟩
      · by_cases he : normKey c = normKey a
        · exact ⟨a, List.mem_cons_self _ _, he.symm⟩
        · obtain ⟨d, hd, hdk⟩ := ih (normKey a :: seen) c h (by
            intro hmem
            rcases List.mem_cons.1 hmem with h2 | h2
            · exact he h2
            · exact hns h2)
          exact ⟨d, List.mem_cons_of_mem _ hd, hdk⟩

/-- The dedup loop output has pairwise distinct keys. -/
theorem dedupGo_pairwise :
    ∀ (l : List ParsedCredit) (seen : List (String × String)),
      (dedupGo l seen).Pairwise (fun a b => normKey a ≠ normKey b) := by
  intro l
  induction l with
  | nil => intro seen; simp [dedupGo]
  | cons a as ih =>
    intro seen
    rw [dedupGo]
    by_cases ha : normKey a ∈ seen
    · rw [if_pos ha]
      exact ih seen
    · rw [if_neg ha]
      refine List.Pairwise.cons ?_ (ih (normKey a :: seen))
      intro b hb hep
      exact dedupGo_key_not_seen as (normKey a :: seen) b hb (hep ▸ List.mem_cons_self _ _)

/-- C8: the Extractor's credit output — the five strategies' candidate lists
concatenated in strategy order, then deduplicated by lowercased, stripped
`(role, name)` — never contains two records with the same normalized key;
it is a subsequence of the concatenation; every candidate key survives; and
each surviving record is the first candidate carrying its key in strategy
order.  In particular a `(role, name)` pair produced by two different
strategies appears exactly once, as the earlier strategy produced it. -/
theorem c8_credit_dedup (s1 s2 s3 s4 s5 : List ParsedCredit) :
    (extract_credits s1 s2 s3 s4 s5).Pairwise (fun a b => normKey a ≠ normKey b)
  ∧ List.Sublist (extract_credits s1 s2 s3 s4 s5) (s1 ++ s2 ++ s3 ++ s4 ++ s5)
  ∧ (∀ c ∈ s1 ++ s2 ++ s3 ++ s4 ++ s5,
      ∃ d ∈ extract_credits s1 s2 s3 s4 s5, normKey d = normKey c)
  ∧ (∀ d ∈ extract_credits s1 s2 s3 s4 s5,
      (s1 ++ s2 ++ s3 ++ s4 ++ s5).find? (fun x => normKey x == normKey d) = some d) :=
  ⟨dedupGo_pairwise _ [], dedupGo_sublist _ [],
   fun c hc => dedupGo_covers _ [] c hc (by simp),
   fun d hd => dedupGo_first_occurrence _ [] d hd⟩

/-- C8 witness: the `(Author, Jane Doe)` pair duplicated (case- and
whitespace-insensitively) across strategies 1 and 2 is kept exactly once,
as strategy 1 produced it. -/
theorem c8_credit_dedup_witness :
    ((⟨"Author", "Jane Doe", none⟩ : ParsedCredit) ∈
      extract_credits [⟨"Author", "Jane Doe", none⟩]
        [⟨"author", " jane doe ", some "Org"⟩, ⟨"Producer", "Kim Lee", none⟩] [] [] [])
  ∧ (([⟨"Author", "Jane Doe", none⟩] : List ParsedCredit) ++
      ([⟨"author", " jane doe ", some "Org"⟩, ⟨"Producer", "Kim Lee", none⟩] :
        List ParsedCredit) ++ [] ++ [] ++
      []).find? (fun x => normKey x == normKey ⟨"Author", "Jane Doe", none⟩) =
      some ⟨"Author", "Jane Doe", none⟩ :=
  ⟨by decide,
   (c8_credit_dedup [⟨"Author", "Jane Doe", none⟩]
      [⟨"author", " jane doe ", some "Org"⟩, ⟨"Producer", "Kim Lee", none⟩] [] [] []).2.2.2
     ⟨"Author", "Jane Doe", none⟩ (by decide)⟩

/-! ## C9 -/

theorem length_dropWhile_le (p : Char → Bool) (l : Str) :
    (l.dropWhile p).length ≤ l.length := by
  induction l with
  | nil => simp
  | cons a as ih =>
    rw [List.dropWhile_cons]
    by_cases h : p a
    · rw [if_pos h]
      exact le_trans ih (Nat.le_succ _)
    · rw [if_neg h]

theorem pyStrip_length_le (s : Str) : (pyStrip s).length ≤ s.length := by
  rw [pyStrip]
  calc ((s.dropWhile isPySpace).reverse.dropWhile isPySpace).reverse.length
      = ((s.dropWhile isPySpace).reverse.dropWhile isPySpace).length :=
        List.length_reverse _
    _ ≤ (s.dropWhile isPySpace).reverse.length := length_dropWhile_le _ _
    _ = (s.dropWhile isPySpace).length := List.length_reverse _
    _ ≤ s.length := length_dropWhile_le _ _

/-- C9: with the default parameters, `chunk_text` returns the empty list —
raising nothing — whenever the input is empty or whitespace-only, and also
whenever the whole input's estimated token count `len(text) // 4` is below
`min_tokens = 50`, for every section label. -/
theorem c9_empty_or_small_input (text : Str) (sec : String)
    (h : (pyStrip text).isEmpty = true ∨ estimate_tokens text < defaultParams.min_tokens) :
    chunk_text defaultParams text sec = [] := by
  rcases h with h | h
  · simp [chunk_text, h]
  · by_cases he : (pyStrip text).isEmpty
    · simp [chunk_text, he]
    · have hle : estimate_tokens (pyStrip text) ≤ estimate_tokens text :=
        Nat.div_le_div_right (pyStrip_length_le text)
      have hlt : estimate_tokens (pyStrip text) < defaultParams.min_tokens :=
        lt_of_le_of_lt hle h
      have hmax : estimate_tokens (pyStrip text) ≤ defaultParams.max_tokens :=
        le_trans (le_of_lt hlt) (by norm_num [defaultParams])
      simp [chunk_text, he, hmax, hlt]

/-- C9 witness: a two-character text (0 estimated tokens) yields no chunks. -/
theorem c9_empty_or_small_input_witness :
    chunk_text defaultParams ['h', 'i'] "description" = [] :=
  c9_empty_or_small_input ['h', 'i'] "description" (Or.inr (by decide))

/-! ## C10 -/

theorem create_chunk_index (c : Str) (s : String) (i : Nat) :
    (create_chunk c s i).chunk_index = i := rfl

/-- The clause-split loop numbers its chunks consecutively from its starting
index. -/
theorem slsGo_indexes (P : ChunkerParams) (sec : String) :
    ∀ (parts : List Str) (current : Str) (idx : Nat),
      (slsGo P sec parts current idx).map (·.chunk_index) =
        List.range' idx (slsGo P sec parts current idx).length := by
  intro parts
  induction parts with
  | nil =>
    intro current idx
    rw [slsGo]
    by_cases h : current.isEmpty
    · simp [h]
    · simp [h, create_chunk_index, List.range'_succ]
  | cons p ps ih =>
    intro current idx
    rw [slsGo]
    by_cases h1 : estimate_tokens (current ++ p) ≤ P.max_tokens
    · rw [if_pos h1]
      exact ih _ idx
    · rw [if_neg h1]
      by_cases h2 : current.isEmpty
      · rw [if_neg (by simpa using h2)]
        exact ih p idx
      · rw [if_pos (by simpa using h2)]
        rw [List.map_cons, List.length_cons, create_chunk_index, ih p (idx + 1),
          List.range'_succ]

/-- `split_long_sentence` numbers its chunks consecutively from
`start_index`. -/
theorem split_long_sentence_indexes (P : ChunkerParams) (sentence : Str) (sec : String)
    (start_index : Nat) :
    (split_long_sentence P sentence sec start_index).map (·.chunk_index) =
      List.range' start_index (split_long_sentence P sentence sec start_index).length :=
  slsGo_indexes P sec _ [] start_index

/-- Gluing lemma: a block of indexes `0..n-1` followed by `n..n+m-1` is
`0..n+m-1`. -/
theorem range_append_range' (n m : Nat) :
    List.range n ++ List.range' n m = List.range (n + m) := by
  rw [List.range_eq_range', List.range_eq_range']
  have := List.range'_append 0 n m 1
  simpa [Nat.add_comm n m] using this

/-- One loop iteration of `chunk_text` preserves consecutive numbering:
`chunk_index` keeps counting the chunk list's length. -/
theorem ctStep_indexes (P : ChunkerParams) (sec : String) (st : CTState) (sentence : Str)
    (h1 : st.idx = st.chunks.length)
    (h2 : st.chunks.map (·.chunk_index) = List.range st.chunks.length) :
    (ctStep P sec st sentence).idx = (ctStep P sec st sentence).chunks.length
  ∧ (ctStep P sec st sentence).chunks.map (·.chunk_index) =
      List.range (ctStep P sec st sentence).chunks.length := by
  rw [ctStep]
  by_cases ha : estimate_tokens sentence > P.max_tokens
  · rw [if_pos ha]
    by_cases hcur : st.current.isEmpty
    · -- nothing to flush: splice the sub-chunks at the running index
      rw [if_neg (by simpa using hcur)]
      constructor
      · simp [h1]
      · dsimp only
        rw [List.map_append, h2, h1, split_long_sentence_indexes, List.length_append]
        exact range_append_range' _ _
    · -- flush, then splice the sub-chunks one index later
      rw [if_pos (by simpa using hcur)]
      constructor
      · simp [h1]
        omega
      · dsimp only
        rw [List.map_append, List.map_append, h2, List.map_cons, List.map_nil,
          create_chunk_index, h1, split_long_sentence_indexes,
          List.length_append, List.length_append, List.length_cons, List.length_nil,
          ← List.range_succ, range_append_range' _ _]
  · rw [if_neg ha]
    by_cases hb : st.current_tokens + estimate_tokens sentence > P.target_tokens
    · rw [if_pos hb]
      by_cases hc : ¬ st.current.isEmpty = true ∧ st.current_tokens ≥ P.min_tokens
      · -- close the current chunk and reseed with overlap
        rw [if_pos hc]
        constructor
        · simp [h1]
        · dsimp only
          rw [List.map_append, h2, List.map_cons, List.map_nil, create_chunk_index, h1,
            List.length_append, List.length_cons, List.length_nil, ← List.range_succ]
      · -- current chunk too small: add the sentence anyway
        rw [if_neg hc]
        exact ⟨h1, h2⟩
    · rw [if_neg hb]
      exact ⟨h1, h2⟩

/-- The whole sentence loop preserves consecutive numbering. -/
theorem ctFold_indexes (P : ChunkerParams) (sec : String) :
    ∀ (sentences : List Str) (st : CTState),
      st.idx = st.chunks.length →
      st.chunks.map (·.chunk_index) = List.range st.chunks.length →
      (sentences.foldl (ctStep P sec) st).idx =
          (sentences.foldl (ctStep P sec) st).chunks.length
        ∧ (sentences.foldl (ctStep P sec) st).chunks.map (·.chunk_index) =
            List.range (sentences.foldl (ctStep P sec) st).chunks.length := by
  intro sentences
  induction sentences with
  | nil => intro st h1 h2; exact ⟨h1, h2⟩
  | cons s ss ih =>
    intro st h1 h2
    rw [List.foldl_cons]
    obtain ⟨h1s, h2s⟩ := ctStep_indexes P sec st s h1 h2
    exact ih _ h1s h2s

/-- The trailing-content handling preserves consecutive numbering (the merge
path reuses the last chunk's index). -/
theorem ctFinish_indexes (P : ChunkerParams) (sec : String) (st : CTState)
    (h1 : st.idx = st.chunks.length)
    (h2 : st.chunks.map (·.chunk_index) = List.range st.chunks.length) :
    (ctFinish P sec st).map (·.chunk_index) = List.range (ctFinish P sec st).length := by
  rw [ctFinish]
  by_cases ha : st.current.isEmpty
  · rw [if_neg (by simpa using ha)]
    exact h2
  · rw [if_pos (by simpa using ha)]
    by_cases hb : st.current_tokens ≥ P.min_tokens
    · rw [if_pos hb]
      rw [List.map_append, h2, List.map_cons, List.map_nil, create_chunk_index, h1,
        List.length_append, List.length_cons, List.length_nil, ← List.range_succ]
    · rw [if_neg hb]
      cases hl : st.chunks.getLast? with
      | none => exact h2
      | some last =>
        obtain ⟨l', hl'⟩ := List.getLast?_eq_some_iff.1 hl
        rw [hl'] at h2 ⊢
        rw [List.dropLast_concat, List.map_append, List.map_cons, List.map_nil,
          create_chunk_index, List.length_append, List.length_cons, List.length_nil]
        rw [List.map_append, List.map_cons, List.map_nil, List.length_append,
          List.length_cons, List.length_nil, List.range_succ] at h2
        have hlen : (l'.map (·.chunk_index)).length = (List.range l'.length).length := by
          simp
        obtain ⟨hmap, hlast⟩ := List.append_inj h2 (by simpa using hlen)
        have hidx : last.chunk_index = l'.length := List.head_eq_of_cons_eq hlast
        rw [hmap, hidx, ← List.range_succ]

/-- C10: for every parameter set, input text and section label, the chunk
list returned by `chunk_text` carries `chunk_index` values exactly
`0, 1, ..., n-1` in output order — consecutive from 0, no gaps, no
duplicates — across the long-sentence clause-split path (which continues the
running index) and the small-remainder merge path (which reuses the last
chunk's index). -/
theorem c10_chunk_indexes (P : ChunkerParams) (text : Str) (sec : String) :
    (chunk_text P text sec).map (·.chunk_index) =
      List.range (chunk_text P text sec).length := by
  rw [chunk_text]
  by_cases h1 : (pyStrip text).isEmpty
  · rw [if_pos h1]
    simp
  · rw [if_neg h1]
    by_cases h2 : estimate_tokens (pyStrip text) ≤ P.max_tokens
    · rw [if_pos h2]
      by_cases h3 : estimate_tokens (pyStrip text) < P.min_tokens
      · rw [if_pos h3]
        simp
      · rw [if_neg h3]
        simp [create_chunk_index, List.range_succ]
    · rw [if_neg h2]
      obtain ⟨hf1, hf2⟩ := ctFold_indexes P sec (split_sentences (pyStrip text))
        ⟨[], [], 0, 0⟩ rfl rfl
      exact ctFinish_indexes P sec _ hf1 hf2

/-! ## C3 -/

/-- C3 (amended): under the default parameters, when the whole stripped
text's estimated token count is at most `max_tokens`, the output is exactly
the single whole-text chunk when that estimate reaches `min_tokens`, and
empty otherwise — and on this path every emitted chunk's estimate lies in
`[min_tokens, max_tokens]`.  (On the sentence-splitting path the
`[min_tokens, max_tokens]` bounds do not hold in general — see the
counterexample.) -/
theorem c3_small_text_single_chunk (text : Str) (sec : String)
    (h : estimate_tokens (pyStrip text) ≤ defaultParams.max_tokens) :
    chunk_text defaultParams text sec =
      if estimate_tokens (pyStrip text) < defaultParams.min_tokens then []
      else [create_chunk (pyStrip text) sec 0] := by
  rw [chunk_text]
  by_cases he : (pyStrip text).isEmpty
  · rw [if_pos he]
    have h0 : estimate_tokens (pyStrip text) = 0 := by
      rw [List.isEmpty_iff] at he
      rw [he]
      rfl
    rw [if_pos (by rw [h0]; norm_num [defaultParams])]
  · rw [if_neg he, if_pos h]

set_option maxRecDepth 4000 in
/-- C3 witness: a 200-character text (estimated 50 tokens, within
`[min, max]`) yields the single whole-text chunk. -/
theorem c3_small_text_single_chunk_witness :
    chunk_text defaultParams (List.replicate 200 'x') "description" =
      if estimate_tokens (pyStrip (List.replicate 200 'x')) < defaultParams.min_tokens then []
      else [create_chunk (pyStrip (List.replicate 200 'x')) "description" 0] :=
  c3_small_text_single_chunk (List.replicate 200 'x') "description" (by decide)

/-! ### C3 counterexample: evaluating `chunk_text` on `exText` symbolically
(the 3473-character input is far beyond what kernel reduction can force
element by element, so the run is replayed through replicate-block lemmas) -/

/-- Scanning one non-whitespace character. -/
theorem sentSplitGo_step (fuel : Nat) (prevEnd : Bool) (accRev : Str) (c : Char)
    (rs : Str) (hc : isPySpace c = false) :
    sentSplitGo (fuel + 1) prevEnd accRev (c :: rs) =
      sentSplitGo fuel (isSentEnd c) (c :: accRev) rs := by
  rw [sentSplitGo]
  simp [hc]

/-- Scanning a block of `n + 1` letters `a`. -/
theorem sentSplitGo_block (n : Nat) :
    ∀ (fuel : Nat) (accRev rest : Str),
      sentSplitGo (fuel + (n + 1)) false accRev (List.replicate (n + 1) 'a' ++ rest) =
        sentSplitGo fuel false (List.replicate (n + 1) 'a' ++ accRev) rest := by
  induction n with
  | zero =>
    intro fuel accRev rest
    simpa using sentSplitGo_step fuel false accRev 'a' rest rfl
  | succ n ih =>
    intro fuel accRev rest
    rw [List.replicate_succ, List.cons_append,
      show fuel + (n + 1 + 1) = (fuel + (n + 1)) + 1 by omega,
      sentSplitGo_step (fuel + (n + 1)) false accRev 'a'
        (List.replicate (n + 1) 'a' ++ rest) rfl,
      show isSentEnd 'a' = false from rfl, ih fuel ('a' :: accRev) rest]
    have h1 : (List.replicate (n + 1) 'a' ++ 'a' :: accRev : Str) =
        List.replicate (n + 1 + 1) 'a' ++ accRev := by
      rw [← List.singleton_append, ← List.append_assoc, ← List.replicate_succ']
    have h2 : (List.replicate (n + 1 + 1) 'a' ++ accRev : Str) =
        'a' :: (List.replicate (n + 1) 'a' ++ accRev) := by
      rw [List.replicate_succ, List.cons_append]
    rw [h1, h2, List.cons_append]

/-- A sentence boundary: previous char was `.!?`, a single space follows,
and the next character is an ASCII capital. -/
theorem sentSplitGo_boundary (fuel : Nat) (accRev : Str) (d : Char) (rs : Str)
    (hd1 : isPySpace d = false) (hd2 : isUpperAZ d = true) :
    sentSplitGo (fuel + 1) true accRev (' ' :: d :: rs) =
      accRev.reverse :: sentSplitGo fuel false [] (d :: rs) := by
  rw [sentSplitGo]
  rw [show (true && isPySpace ' ') = true from rfl, if_pos rfl]
  rw [show (' ' :: d :: rs).takeWhile isPySpace = ' ' :: (d :: rs).takeWhile isPySpace
    from by rw [List.takeWhile_cons]; rfl]
  rw [show (d :: rs).takeWhile isPySpace = [] from by rw [List.takeWhile_cons]; simp [hd1]]
  simp [hd2]

/-- End of input right after sentence-final punctuation: the zero-width
`(?<=[.!?])\s*$` match emits a trailing empty part. -/
theorem sentSplitGo_end (fuel : Nat) (accRev : Str) :
    sentSplitGo (fuel + 1) true accRev [] = [accRev.reverse, []] := by
  rw [sentSplitGo]
  simp

/-- Reversing an accumulated sentence. -/
theorem rev_accumulated_sentence (n : Nat) (X : Char) :
    ('.' :: (List.replicate n 'a' ++ [X])).reverse = X :: (List.replicate n 'a' ++ ['.']) := by
  simp [List.reverse_cons, List.reverse_append, List.reverse_replicate]

/-- The sentence scan of `exText` produces the three sentences plus the
trailing empty part of the zero-width end match. -/
theorem sentSplitGo_exText :
    sentSplitGo 3474 false [] exText = [exSent1, exSent2, exSent3, []] := by
  have hshape : exText = 'A' :: (List.replicate 194 'a' ++ ('.' :: ' ' ::
      ('B' :: (List.replicate 3073 'a' ++ ('.' :: ' ' ::
        ('C' :: (List.replicate 198 'a' ++ ['.']))))))) := by
    simp only [exText, exSent1, exSent2, exSent3, List.cons_append, List.append_assoc,
      List.singleton_append, List.nil_append]
  rw [hshape]
  rw [show (3474 : Nat) = 3473 + 1 from rfl,
    sentSplitGo_step 3473 false [] 'A' _ rfl, show isSentEnd 'A' = false from rfl]
  rw [show (3473 : Nat) = 3279 + (193 + 1) from rfl,
    show (List.replicate 194 'a' : Str) = List.replicate (193 + 1) 'a' from rfl,
    sentSplitGo_block 193 3279 ['A'] _]
  rw [show (3279 : Nat) = 3278 + 1 from rfl,
    sentSplitGo_step 3278 false _ '.' _ rfl, show isSentEnd '.' = true from rfl]
  rw [show (3278 : Nat) = 3277 + 1 from rfl,
    sentSplitGo_boundary 3277 _ 'B' _ rfl rfl]
  rw [rev_accumulated_sentence (193 + 1) 'A']
  rw [show (3277 : Nat) = 3276 + 1 from rfl,
    sentSplitGo_step 3276 false [] 'B' _ rfl, show isSentEnd 'B' = false from rfl]
  rw [show (3276 : Nat) = 203 + (3072 + 1) from rfl,
    show (List.replicate 3073 'a' : Str) = List.replicate (3072 + 1) 'a' from rfl,
    sentSplitGo_block 3072 203 ['B'] _]
  rw [show (203 : Nat) = 202 + 1 from rfl,
    sentSplitGo_step 202 false _ '.' _ rfl, show isSentEnd '.' = true from rfl]
  rw [show (202 : Nat) = 201 + 1 from rfl,
    sentSplitGo_boundary 201 _ 'C' _ rfl rfl]
  rw [rev_accumulated_sentence (3072 + 1) 'B']
  rw [show (201 : Nat) = 200 + 1 from rfl,
    sentSplitGo_step 200 false [] 'C' _ rfl, show isSentEnd 'C' = false from rfl]
  rw [show (200 : Nat) = 2 + (197 + 1) from rfl,
    show (List.replicate 198 'a' : Str) = List.replicate (197 + 1) 'a' from rfl,
    sentSplitGo_block 197 2 ['C'] _]
  rw [show (2 : Nat) = 1 + 1 from rfl,
    sentSplitGo_step 1 false _ '.' _ rfl, show isSentEnd '.' = true from rfl]
  rw [show (1 : Nat) = 0 + 1 from rfl, sentSplitGo_end 0 _]
  rw [rev_accumulated_sentence (197 + 1) 'C']
  simp only [exSent1, exSent2, exSent3]

/-- Stripping is the identity on a string with non-whitespace endpoints. -/
theorem pyStrip_noop (c d : Char) (mid : Str) (hc : isPySpace c = false)
    (hd : isPySpace d = false) :
    pyStrip (c :: (mid ++ [d])) = c :: (mid ++ [d]) := by
  rw [pyStrip]
  rw [List.dropWhile_cons, if_neg (by simp [hc])]
  rw [show (c :: (mid ++ [d])).reverse = d :: (mid.reverse ++ [c]) from by simp]
  rw [List.dropWhile_cons, if_neg (by simp [hd])]
  rw [show (d :: (mid.reverse ++ [c])).reverse = c :: (mid ++ [d]) from by simp]

/-- Stripping swallows a leading whitespace character. -/
theorem pyStrip_cons_space (c : Char) (s : Str) (hc : isPySpace c = true) :
    pyStrip (c :: s) = pyStrip s := by
  rw [pyStrip, pyStrip, List.dropWhile_cons, if_pos hc]

theorem pyStrip_exSent1 : pyStrip exSent1 = exSent1 :=
  pyStrip_noop 'A' '.' (List.replicate 194 'a') rfl rfl

/-- `_split_sentences` on the example text: three sentences. -/
theorem split_sentences_exText : split_sentences exText = [exSent1, exSent2, exSent3] := by
  have hlen : exText.length = 3473 := by
    simp only [exText, exSent1, exSent2, exSent3, List.length_append, List.length_cons,
      List.length_replicate, List.length_nil]
  simp only [split_sentences, hlen]
  rw [show (3473 : Nat) + 1 = 3474 from rfl, sentSplitGo_exText]
  have h2 : pyStrip exSent2 = exSent2 := pyStrip_noop 'B' '.' (List.replicate 3073 'a') rfl rfl
  have h3 : pyStrip exSent3 = exSent3 := pyStrip_noop 'C' '.' (List.replicate 198 'a') rfl rfl
  rw [List.map_cons, List.map_cons, List.map_cons, List.map_cons, List.map_nil,
    pyStrip_exSent1, h2, h3, show pyStrip ([] : Str) = [] from rfl]
  rfl

theorem estimate_exSent1 : estimate_tokens exSent1 = 49 := by
  simp only [estimate_tokens, exSent1, List.length_cons, List.length_append,
    List.length_replicate, List.length_nil]

theorem estimate_exSent2 : estimate_tokens exSent2 = 768 := by
  simp only [estimate_tokens, exSent2, List.length_cons, List.length_append,
    List.length_replicate, List.length_nil]

theorem estimate_exSent3 : estimate_tokens exSent3 = 50 := by
  simp only [estimate_tokens, exSent3, List.length_cons, List.length_append,
    List.length_replicate, List.length_nil]

theorem shape_cat12 : exSent1 ++ ' ' :: exSent2 =
    'A' :: ((List.replicate 194 'a' ++ '.' :: ' ' :: 'B' :: List.replicate 3073 'a') ++
      ['.']) := by
  simp only [exSent1, exSent2, List.cons_append, List.append_assoc, List.singleton_append,
    List.nil_append]

theorem pyStrip_cat12 : pyStrip (exSent1 ++ ' ' :: exSent2) = exSent1 ++ ' ' :: exSent2 := by
  rw [shape_cat12]
  exact pyStrip_noop 'A' '.' _ rfl rfl

theorem length_cat12 : (exSent1 ++ ' ' :: exSent2).length = 3272 := by
  simp only [exSent1, exSent2, List.length_cons, List.length_append, List.length_replicate,
    List.length_nil]

theorem estimate_cat12 : estimate_tokens (exSent1 ++ ' ' :: exSent2) = 818 := by
  rw [estimate_tokens, length_cat12]

/-- Iteration 1: the first sentence (49 tokens) is accumulated. -/
theorem ctStep_ex1 :
    ctStep defaultParams "description" ⟨[], [], 0, 0⟩ exSent1 = ⟨[], exSent1, 49, 0⟩ := by
  have hstrip : pyStrip (([] : Str) ++ ' ' :: exSent1) = exSent1 := by
    rw [List.nil_append, pyStrip_cons_space ' ' exSent1 rfl, pyStrip_exSent1]
  rw [ctStep]
  rw [if_neg (by rw [estimate_exSent1]; decide)]
  dsimp only
  rw [if_neg (by rw [estimate_exSent1]; decide)]
  rw [hstrip, estimate_exSent1]

/-- Iteration 2: the second sentence (768 tokens, not above max) overflows
the target, but the 49-token accumulation is below the minimum, so the
sentence is added anyway — the accumulation reaches 818 estimated tokens. -/
theorem ctStep_ex2 :
    ctStep defaultParams "description" ⟨[], exSent1, 49, 0⟩ exSent2 =
      ⟨[], exSent1 ++ ' ' :: exSent2, 818, 0⟩ := by
  rw [ctStep]
  rw [if_neg (by rw [estimate_exSent2]; decide)]
  dsimp only
  rw [if_pos (by rw [estimate_exSent2]; decide)]
  rw [if_neg (by decide)]
  rw [pyStrip_cat12, estimate_cat12]

theorem drop_cat12 : (exSent1 ++ ' ' :: exSent2).drop 3016 =
    List.replicate 255 'a' ++ ['.'] := by
  have hshape : exSent1 ++ ' ' :: exSent2 = 'A' :: (List.replicate 194 'a' ++
      ('.' :: ' ' :: ('B' :: (List.replicate 3073 'a' ++ ['.'])))) := by
    simp only [exSent1, exSent2, List.cons_append, List.append_assoc,
      List.singleton_append, List.nil_append]
  rw [hshape]
  rw [show (3016 : Nat) = 3015 + 1 from rfl, List.drop_succ_cons]
  rw [show (3015 : Nat) = (List.replicate 194 'a' : Str).length + 2821 from by
      rw [List.length_replicate],
    List.drop_append]
  rw [show (2821 : Nat) = 2820 + 1 from rfl, List.drop_succ_cons,
    show (2820 : Nat) = 2819 + 1 from rfl, List.drop_succ_cons,
    show (2819 : Nat) = 2818 + 1 from rfl, List.drop_succ_cons]
  rw [List.drop_append_of_le_length (by rw [List.length_replicate]; norm_num),
    List.drop_replicate]

/-- The overlap tail seeded before the third sentence: the last 256
characters of the 3272-character accumulation contain no space, so the
word-boundary adjustment is a no-op and a single space is appended. -/
theorem overlap_cat12 : get_overlap_text defaultParams (exSent1 ++ ' ' :: exSent2) =
    (List.replicate 255 'a' ++ ['.']) ++ [' '] := by
  rw [get_overlap_text]
  rw [if_neg (by rw [length_cat12]; decide)]
  rw [length_cat12, show (3272 : Nat) - defaultParams.overlap_tokens * 4 = 3016 from by decide]
  rw [drop_cat12]
  have hfind : (List.replicate 255 'a' ++ ['.'] : Str).findIdx? (fun c => c = ' ') = none := by
    refine List.findIdx?_eq_none_iff.2 ?_
    intro x hx
    rcases List.mem_append.1 hx with h | h
    · rw [List.eq_of_mem_replicate h]
      rfl
    · rw [List.mem_singleton.1 h]
      rfl
  dsimp only
  rw [hfind]

theorem estimate_current3 :
    estimate_tokens (((List.replicate 255 'a' ++ ['.']) ++ [' ']) ++ exSent3) = 114 := by
  simp only [estimate_tokens, exSent3, List.length_append, List.length_cons,
    List.length_replicate, List.length_nil]

/-- Iteration 3: the 818-token accumulation (≥ min) is flushed as a chunk
whose estimate exceeds `max_tokens`, and the overlap tail plus the third
sentence (114 tokens) starts the next accumulation. -/
theorem ctStep_ex3 :
    ctStep defaultParams "description" ⟨[], exSent1 ++ ' ' :: exSent2, 818, 0⟩ exSent3 =
      ⟨[⟨exSent1 ++ ' ' :: exSent2, "description", 0, 818⟩],
        ((List.replicate 255 'a' ++ ['.']) ++ [' ']) ++ exSent3, 114, 1⟩ := by
  have hcreate : create_chunk (exSent1 ++ ' ' :: exSent2) "description" 0 =
      ⟨exSent1 ++ ' ' :: exSent2, "description", 0, 818⟩ := by
    simp only [create_chunk]
    rw [pyStrip_cat12, estimate_cat12]
  rw [ctStep]
  rw [if_neg (by rw [estimate_exSent3]; decide)]
  dsimp only
  rw [if_pos (by rw [estimate_exSent3]; decide)]
  rw [if_pos ⟨by decide, by decide⟩]
  rw [hcreate, overlap_cat12, estimate_current3]
  rw [List.nil_append]

theorem shape_current3 : ((List.replicate 255 'a' ++ ['.']) ++ [' ']) ++ exSent3 =
    'a' :: ((List.replicate 254 'a' ++ '.' :: ' ' :: 'C' :: List.replicate 198 'a') ++
      ['.']) := by
  rw [show (List.replicate 255 'a' : Str) = 'a' :: List.replicate 254 'a' from rfl]
  simp only [exSent3, List.cons_append, List.append_assoc, List.singleton_append,
    List.nil_append]

/-- Trailing content: the 114-token remainder meets the minimum and is
emitted as the second chunk. -/
theorem ctFinish_ex :
    ctFinish defaultParams "description"
      ⟨[⟨exSent1 ++ ' ' :: exSent2, "description", 0, 818⟩],
        ((List.replicate 255 'a' ++ ['.']) ++ [' ']) ++ exSent3, 114, 1⟩ =
      [⟨exSent1 ++ ' ' :: exSent2, "description", 0, 818⟩,
       ⟨((List.replicate 255 'a' ++ ['.']) ++ [' ']) ++ exSent3, "description", 1, 114⟩] := by
  have hstrip : pyStrip (((List.replicate 255 'a' ++ ['.']) ++ [' ']) ++ exSent3) =
      ((List.replicate 255 'a' ++ ['.']) ++ [' ']) ++ exSent3 := by
    rw [shape_current3]
    exact pyStrip_noop 'a' '.' _ rfl rfl
  rw [ctFinish]
  dsimp only
  rw [if_pos (by decide)]
  rw [if_pos (by decide)]
  simp only [create_chunk]
  rw [hstrip, estimate_current3]
  rfl

theorem shape_exText : exText = 'A' :: ((List.replicate 194 'a' ++
    ('.' :: ' ' :: ('B' :: (List.replicate 3073 'a' ++
      ('.' :: ' ' :: ('C' :: List.replicate 198 'a')))))) ++ ['.']) := by
  simp only [exText, exSent1, exSent2, exSent3, List.cons_append, List.append_assoc,
    List.singleton_append, List.nil_append]

theorem pyStrip_exText : pyStrip exText = exText := by
  rw [shape_exText]
  exact pyStrip_noop 'A' '.' _ rfl rfl

theorem estimate_exText : estimate_tokens exText = 868 := by
  simp only [estimate_tokens, exText, exSent1, exSent2, exSent3, List.length_cons,
    List.length_append, List.length_replicate, List.length_nil]

/-- C3 counterexample: on the 3473-character example text (868 estimated
tokens, above `max_tokens = 768`, so the single-whole-chunk exception does
not apply) the default-parameter chunker emits a first chunk of 818
estimated tokens — strictly above `max_tokens` — because a 49-token
accumulation (below `min_tokens`) absorbed a 768-token sentence before
being flushed.  This refutes the claimed `[min_tokens, max_tokens]` bounds. -/
theorem c3_counterexample :
    defaultParams.max_tokens < estimate_tokens (pyStrip exText)
  ∧ (chunk_text defaultParams exText "description").map (·.token_count) = [818, 114]
  ∧ defaultParams.max_tokens < 818 := by
  refine ⟨by rw [pyStrip_exText, estimate_exText]; decide, ?_, by decide⟩
  rw [chunk_text]
  rw [if_neg (by rw [pyStrip_exText]; decide)]
  rw [pyStrip_exText]
  rw [if_neg (by rw [estimate_exText]; decide)]
  rw [split_sentences_exText, List.foldl_cons, ctStep_ex1, List.foldl_cons, ctStep_ex2,
    List.foldl_cons, ctStep_ex3, List.foldl_nil, ctFinish_ex]
  rfl

end Svs
